import Mathlib

/-!
Verification of the deploy-cloudrun action core: the Command Builder
(`src/main.ts`, function `run` and its helpers) and the Response Parser
(`src/output-parser.ts`).  The TypeScript is shallowly embedded: each
source function becomes an executable Lean definition, JavaScript dynamic
values (results of `JSON.parse`) become the `Json` inductive, JavaScript
exceptions become `Except`, and `undefined` becomes `Option.none`.
-/

/-! ## JavaScript string primitives -/

/-- Whitespace characters recognised by the JavaScript `\s` regex class and
by `String.prototype.trim`. -/
def jsWs (c : Char) : Bool :=
  c = ' ' || c = '\t' || c = '\n' || c = '\x0b' || c = '\x0c' || c = '\r' ||
  c = '\xa0' || c.toNat = 0x1680 ||
  (0x2000 ≤ c.toNat && c.toNat ≤ 0x200a) ||
  c.toNat = 0x2028 || c.toNat = 0x2029 || c.toNat = 0x202f ||
  c.toNat = 0x205f || c.toNat = 0x3000 || c.toNat = 0xfeff

/-- Characters matched by the JavaScript regex `.` (anything except line
terminators). -/
def jsDot (c : Char) : Bool :=
  !(c = '\n' || c = '\r' || c.toNat = 0x2028 || c.toNat = 0x2029)

/-- JavaScript `String.prototype.trim`. -/
def jsTrim (s : String) : String :=
  String.mk (((s.data.dropWhile jsWs).reverse.dropWhile jsWs).reverse)

/-- The helper presence from actions-utils: trim, and return `undefined` for the
empty string. -/
def jsPresence (s : String) : Option String :=
  let t := jsTrim s
  if t = "" then none else some t

/-- JavaScript `String.prototype.toLowerCase`, on the ASCII range (the only
range exercised by the program, which lowercases label values). -/
def jsToLowerCase (s : String) : String :=
  String.mk (s.data.map Char.toLower)

/-- Containment of one string in another, used to state that error messages
echo their inputs. -/
def strContains (hay needle : String) : Prop :=
  needle.data <:+: hay.data

instance (hay needle : String) : Decidable (strContains hay needle) :=
  inferInstanceAs (Decidable (needle.data <:+: hay.data))

/-! ## Dynamic JSON values

`Json` models the JavaScript values produced by `JSON.parse`.  Numbers are
kept as their source text: the program never inspects a numeric value, so
no floating-point semantics are needed. -/

inductive Json where
  | null : Json
  | bool (b : Bool) : Json
  | num (raw : String) : Json
  | str (s : String) : Json
  | arr (items : List Json) : Json
  | obj (fields : List (String × Json)) : Json

/-- Property access on a dynamic value: `v[k]` for a string key.  Only
objects have (own, enumerable) string properties in the shapes this program
touches; every other value yields `undefined`.  `JSON.parse` keeps the last
of duplicate keys, hence the reverse lookup. -/
def jsGetMember (v : Json) (k : String) : Option Json :=
  match v with
  | Json.obj fields => List.lookup k fields.reverse
  | _ => none

/-- Optional chaining `o?.k`: short-circuits on `undefined` and `null`. -/
def jsChain (o : Option Json) (k : String) : Option Json :=
  match o with
  | none => none
  | some Json.null => none
  | some v => jsGetMember v k

/-- JavaScript truthiness of a dynamic value.  A JSON number is falsy
exactly when its mantissa digits are all zero (JSON numbers cannot be
`NaN`). -/
def jsTruthy (v : Json) : Bool :=
  match v with
  | Json.null => false
  | Json.bool b => b
  | Json.str s => s ≠ ""
  | Json.arr _ => true
  | Json.obj _ => true
  | Json.num raw =>
      ((raw.data.takeWhile (fun c => c ≠ 'e' && c ≠ 'E')).filter Char.isDigit).any
        (fun c => c ≠ '0')

/-! ## JSON.parse

A recursive-descent parser for ECMA-404 JSON (what `JSON.parse` accepts):
optional insignificant whitespace, strings with the standard escapes,
strict number syntax, and the three keyword literals.  Recursion is by a
character-count fuel, generously over-provisioned. -/

/-- JSON insignificant whitespace. -/
def isJsonWs (c : Char) : Bool :=
  c = ' ' || c = '\t' || c = '\n' || c = '\r'

/-- Hexadecimal digit value (code-point arithmetic). -/
def hexVal (c : Char) : Option Nat :=
  let n := c.toNat
  if 48 ≤ n && n ≤ 57 then some (n - 48)
  else if 97 ≤ n && n ≤ 102 then some (n - 87)
  else if 65 ≤ n && n ≤ 70 then some (n - 55)
  else none

/-- Combine four hex digits. -/
def hex4 (a b c d : Char) : Option Nat :=
  match hexVal a, hexVal b, hexVal c, hexVal d with
  | some x, some y, some z, some w => some (((x * 16 + y) * 16 + z) * 16 + w)
  | _, _, _, _ => none

/-- Body of a JSON string after the opening quote, with a fuel bound on the
remaining characters.  Unescaped control characters are rejected; `\uXXXX`
escapes are decoded, pairing surrogates and mapping a lone surrogate to
U+FFFD (Lean characters are scalar values). -/
def parseStringBodyF : Nat → List Char → List Char → Option (String × List Char)
  | 0, _, _ => none
  | Nat.succ _, [], _ => none
  | Nat.succ _, '"' :: rest, acc => some (String.mk acc.reverse, rest)
  | Nat.succ f, '\\' :: '"' :: rest, acc => parseStringBodyF f rest ('"' :: acc)
  | Nat.succ f, '\\' :: '\\' :: rest, acc => parseStringBodyF f rest ('\\' :: acc)
  | Nat.succ f, '\\' :: '/' :: rest, acc => parseStringBodyF f rest ('/' :: acc)
  | Nat.succ f, '\\' :: 'b' :: rest, acc => parseStringBodyF f rest ('\x08' :: acc)
  | Nat.succ f, '\\' :: 'f' :: rest, acc => parseStringBodyF f rest ('\x0c' :: acc)
  | Nat.succ f, '\\' :: 'n' :: rest, acc => parseStringBodyF f rest ('\n' :: acc)
  | Nat.succ f, '\\' :: 'r' :: rest, acc => parseStringBodyF f rest ('\r' :: acc)
  | Nat.succ f, '\\' :: 't' :: rest, acc => parseStringBodyF f rest ('\t' :: acc)
  | Nat.succ f, '\\' :: 'u' :: a :: b :: c :: d :: rest, acc =>
      match hex4 a b c d with
      | none => none
      | some n =>
          if 0xd800 ≤ n && n < 0xdc00 then
            match rest with
            | '\\' :: 'u' :: a2 :: b2 :: c2 :: d2 :: rest2 =>
                match hex4 a2 b2 c2 d2 with
                | some m =>
                    if 0xdc00 ≤ m && m < 0xe000 then
                      parseStringBodyF f rest2
                        (Char.ofNat (0x10000 + (n - 0xd800) * 0x400 + (m - 0xdc00)) :: acc)
                    else parseStringBodyF f rest ('�' :: acc)
                | none => parseStringBodyF f rest ('�' :: acc)
            | _ => parseStringBodyF f rest ('�' :: acc)
          else if 0xdc00 ≤ n && n < 0xe000 then
            parseStringBodyF f rest ('�' :: acc)
          else
            parseStringBodyF f rest (Char.ofNat n :: acc)
  | Nat.succ _, '\\' :: _, _ => none
  | Nat.succ f, c :: rest, acc =>
      if c.toNat < 0x20 then none else parseStringBodyF f rest (c :: acc)

/-- Body of a JSON string after the opening quote.  Every step of
`parseStringBodyF` consumes at least one character, so `length + 1` fuel is
exact. -/
def parseStringBody (cs : List Char) (acc : List Char) : Option (String × List Char) :=
  parseStringBodyF (cs.length + 1) cs acc

/-- JSON number: `-? int frac? exp?` with the strict ECMA-404 grammar.
Returns the matched characters and the remainder. -/
def parseNumberChars (cs : List Char) : Option (List Char × List Char) :=
  let (sign, cs1) :=
    match cs with
    | '-' :: r => (['-'], r)
    | _ => (([] : List Char), cs)
  match cs1 with
  | [] => none
  | c :: _ =>
    if c = '0' then
      let intPart := [c]
      let rest1 := cs1.drop 1
      let (frac, rest2) :=
        match rest1 with
        | '.' :: r2 =>
            let ds := r2.takeWhile Char.isDigit
            if ds.isEmpty then ([], none) else ('.' :: ds, some (r2.drop ds.length))
        | _ => ([], some rest1)
      match rest2 with
      | none => none
      | some rest2v =>
        let (ex, rest3) :=
          match rest2v with
          | e :: r3 =>
            if e = 'e' || e = 'E' then
              let (sgn, r4) :=
                match r3 with
                | s :: r4b => if s = '+' || s = '-' then ([s], r4b) else ([], r3)
                | [] => ([], r3)
              let ds := r4.takeWhile Char.isDigit
              if ds.isEmpty then ([], none)
              else (e :: (sgn ++ ds), some (r4.drop ds.length))
            else ([], some rest2v)
          | [] => ([], some rest2v)
        match rest3 with
        | none => none
        | some rest3v => some (sign ++ intPart ++ frac ++ ex, rest3v)
    else if c.isDigit then
      let intPart := cs1.takeWhile Char.isDigit
      let rest1 := cs1.drop intPart.length
      let (frac, rest2) :=
        match rest1 with
        | '.' :: r2 =>
            let ds := r2.takeWhile Char.isDigit
            if ds.isEmpty then ([], none) else ('.' :: ds, some (r2.drop ds.length))
        | _ => ([], some rest1)
      match rest2 with
      | none => none
      | some rest2v =>
        let (ex, rest3) :=
          match rest2v with
          | e :: r3 =>
            if e = 'e' || e = 'E' then
              let (sgn, r4) :=
                match r3 with
                | s :: r4b => if s = '+' || s = '-' then ([s], r4b) else ([], r3)
                | [] => ([], r3)
              let ds := r4.takeWhile Char.isDigit
              if ds.isEmpty then ([], none)
              else (e :: (sgn ++ ds), some (r4.drop ds.length))
            else ([], some rest2v)
          | [] => ([], some rest2v)
        match rest3 with
        | none => none
        | some rest3v => some (sign ++ intPart ++ frac ++ ex, rest3v)
    else none

/-- One fuel level of the three mutually recursive JSON parsers: a value
parser, an object-members parser and an array-items parser.  The members
and items parsers expect whitespace already skipped and at least one
member/item present. -/
def jsonParsers : Nat →
    ((List Char → Option (Json × List Char)) ×
     (List Char → List (String × Json) → Option (Json × List Char)) ×
     (List Char → List Json → Option (Json × List Char)))
  | 0 => (fun _ => none, fun _ _ => none, fun _ _ => none)
  | Nat.succ f =>
    let P := jsonParsers f
    let pv := P.1
    let pm := P.2.1
    let pi := P.2.2
    ( fun cs =>
        match cs with
        | [] => none
        | '{' :: rest =>
            let r1 := rest.dropWhile isJsonWs
            match r1 with
            | '}' :: r2 => some (Json.obj [], r2)
            | _ => pm r1 []
        | '[' :: rest =>
            let r1 := rest.dropWhile isJsonWs
            match r1 with
            | ']' :: r2 => some (Json.arr [], r2)
            | _ => pi r1 []
        | '"' :: rest =>
            match parseStringBody rest [] with
            | some (s, r) => some (Json.str s, r)
            | none => none
        | 't' :: rest =>
            if rest.take 3 = ['r', 'u', 'e'] then some (Json.bool true, rest.drop 3)
            else none
        | 'f' :: rest =>
            if rest.take 4 = ['a', 'l', 's', 'e'] then some (Json.bool false, rest.drop 4)
            else none
        | 'n' :: rest =>
            if rest.take 3 = ['u', 'l', 'l'] then some (Json.null, rest.drop 3)
            else none
        | c :: _ =>
            if c = '-' || c.isDigit then
              match parseNumberChars cs with
              | some (ds, r) => some (Json.num (String.mk ds), r)
              | none => none
            else none,
      fun cs acc =>
        match cs with
        | '"' :: rest =>
          match parseStringBody rest [] with
          | none => none
          | some (k, r1) =>
            match r1.dropWhile isJsonWs with
            | ':' :: r2 =>
              match pv (r2.dropWhile isJsonWs) with
              | none => none
              | some (v, r3) =>
                match r3.dropWhile isJsonWs with
                | ',' :: r4 => pm (r4.dropWhile isJsonWs) ((k, v) :: acc)
                | '}' :: r4 => some (Json.obj ((k, v) :: acc).reverse, r4)
                | _ => none
            | _ => none
        | _ => none,
      fun cs acc =>
        match pv cs with
        | none => none
        | some (v, r1) =>
          match r1.dropWhile isJsonWs with
          | ',' :: r2 => pi (r2.dropWhile isJsonWs) (v :: acc)
          | ']' :: r2 => some (Json.arr ((v :: acc).reverse), r2)
          | _ => none )

/-- Model of JSON.parse: parse one value surrounded by optional whitespace,
requiring the whole text to be consumed. -/
def jsonParse (s : String) : Option Json :=
  let cs := s.data.dropWhile isJsonWs
  match (jsonParsers (2 * cs.length + 2)).1 cs with
  | some (j, rest) => if (rest.dropWhile isJsonWs).isEmpty then some j else none
  | none => none

example : jsonParse "  true " = some (Json.bool true) := rfl
example : jsonParse "-12.5e+2" = some (Json.num "-12.5e+2") := rfl
example : jsonParse "not json" = none := rfl
example : jsonParse "[1, \"a\", \x7b\"k\": null\x7d]" =
    some (Json.arr [Json.num "1", Json.str "a", Json.obj [("k", Json.null)]]) := rfl
example : jsonParse "\x7b\"a\":1,\"a\":2\x7d" =
    some (Json.obj [("a", Json.num "1"), ("a", Json.num "2")]) := rfl
example : jsonParse "[01]" = none := rfl
example : jsonParse "\"a\\nb\"" = some (Json.str "a\nb") := rfl
example : jsonParse "[[[[\"x\"]]]]" =
    some (Json.arr [Json.arr [Json.arr [Json.arr [Json.str "x"]]]]) := rfl

/-! ## Response Parser (`src/output-parser.ts`)

Both parsers return `DeployCloudRunOutputs` or throw; the thrown message is
modelled by `Except.error`.  The text contributed by the JavaScript engine
to a caught exception (`errorMessage(err)`) is abstracted by two fixed
placeholder strings, one per exception family; the surrounding message
template is taken verbatim from the source. -/

/-- The single output record of the action. -/
structure DeployCloudRunOutputs where
  url : Option Json

/-- Placeholder for the JavaScript engine text of a `JSON.parse` syntax
error. -/
def jsSyntaxErrorText : String := "SyntaxError: unexpected token"

/-- Placeholder for the JavaScript engine text of a `TypeError` raised by
accessing members of an unsuitable dynamic value. -/
def jsTypeErrorText : String := "TypeError: not a function"

/-- Minimal model of `JSON.stringify` on the `ParseInputs` record
`{ tag: tag }` (message cosmetics only). -/
def stringifyParseInputs (tag : String) : String :=
  "\x7b\"tag\":\"" ++ tag ++ "\"\x7d"

/-- Message template of the `parseDeployResponse` catch block, grouped so
that the echoed stdout is a syntactic infix. -/
def deployParseErrMsg (engine stdout tag : String) : String :=
  ("failed to parse deploy response: " ++ engine ++ ", stdout: ") ++ stdout ++
    (", inputs: " ++ stringifyParseInputs tag)

/-- Message template of the `parseUpdateTrafficResponse` catch block. -/
def utParseErrMsg (engine stdout : String) : String :=
  ("failed to parse update traffic response: " ++ engine ++ ", stdout: ") ++ stdout

/-- The `find` callback over `status.traffic`: true for an entry whose
`tag` member is exactly the requested string. -/
def tagMatches (tag : String) (e : Json) : Bool :=
  match jsGetMember e "tag" with
  | some (Json.str s) => s = tag
  | _ => false

/-- The search status.traffic.find((t) => t.tag === inputs.tag): member access on a
`null` element throws a `TypeError`; any other non-object element just
fails the comparison. -/
def findTagEntry : List Json → String → Except Unit (Option Json)
  | [], _ => Except.ok none
  | e :: rest, tag =>
    match e with
    | Json.null => Except.error ()
    | _ => if tagMatches tag e then Except.ok (some e) else findTagEntry rest tag

/-- The body of `parseDeployResponse` after a successful `JSON.parse`:
compute `status.url`, then override it from a matching traffic tag.
Calling `.find` on a non-array, non-nullish `traffic` value throws. -/
def deployExtract (j : Json) (tag : String) : Except Unit DeployCloudRunOutputs :=
  let url := jsChain (jsChain (some j) "status") "url"
  if tag = "" then Except.ok ⟨url⟩
  else
    match jsChain (some j) "status" with
    | none => Except.ok ⟨url⟩
    | some st =>
      match jsGetMember st "traffic" with
      | none => Except.ok ⟨url⟩
      | some Json.null => Except.ok ⟨url⟩
      | some (Json.arr entries) =>
        match findTagEntry entries tag with
        | Except.error () => Except.error ()
        | Except.ok none => Except.ok ⟨url⟩
        | Except.ok (some e) => Except.ok ⟨jsGetMember e "url"⟩
      | some _ => Except.error ()

/-- Embedding of parseDeployResponse(stdout, \x7b tag \x7d) from `src/output-parser.ts`. -/
def parseDeployResponse (stdout : String) (tag : String) :
    Except String DeployCloudRunOutputs :=
  match jsPresence stdout with
  | none => Except.ok ⟨none⟩
  | some s =>
    if s = "\x7b\x7d" ∨ s = "[]" then Except.ok ⟨none⟩
    else
      match jsonParse s with
      | none => Except.error (deployParseErrMsg jsSyntaxErrorText s tag)
      | some j =>
        match deployExtract j tag with
        | Except.ok o => Except.ok o
        | Except.error _ => Except.error (deployParseErrMsg jsTypeErrorText s tag)

/-- Indexing outputJSON[0] on a non-null dynamic value: array element, string
character, or object property `"0"`; `undefined` otherwise. -/
def jsIndexZero (j : Json) : Option Json :=
  match j with
  | Json.arr items => items.head?
  | Json.str s =>
      match s.data with
      | [] => none
      | c :: _ => some (Json.str (String.mk [c]))
  | Json.obj fields => List.lookup "0" fields.reverse
  | _ => none

/-- The `for (const item of outputJSON)` loop of
`parseUpdateTrafficResponse`: keep the default URL unless some item has a
truthy `urls.length`, in which case take `item.urls[0]` and break. -/
def scanTagUrls : List Json → Option Json → Option Json
  | [], url => url
  | item :: rest, url =>
    match item with
    | Json.null => scanTagUrls rest url
    | _ =>
      match jsGetMember item "urls" with
      | none => scanTagUrls rest url
      | some Json.null => scanTagUrls rest url
      | some (Json.arr ys) =>
          match ys with
          | [] => scanTagUrls rest url
          | y :: _ => some y
      | some (Json.str s) =>
          match s.data with
          | [] => scanTagUrls rest url
          | c :: _ => some (Json.str (String.mk [c]))
      | some (Json.obj fields) =>
          match List.lookup "length" fields.reverse with
          | some lv =>
              if jsTruthy lv then List.lookup "0" fields.reverse
              else scanTagUrls rest url
          | none => scanTagUrls rest url
      | some _ => scanTagUrls rest url

/-- The body of `parseUpdateTrafficResponse` after a successful
`JSON.parse`: indexing `null` or iterating a non-iterable value throws a
`TypeError`; iterating a string visits its characters. -/
def utExtract (j : Json) : Except Unit DeployCloudRunOutputs :=
  match j with
  | Json.null => Except.error ()
  | Json.arr items =>
      Except.ok ⟨scanTagUrls items (jsChain (jsIndexZero j) "serviceUrl")⟩
  | Json.str s =>
      Except.ok ⟨scanTagUrls (s.data.map (fun c => Json.str (String.mk [c])))
        (jsChain (jsIndexZero j) "serviceUrl")⟩
  | _ => Except.error ()

/-- Embedding of parseUpdateTrafficResponse(stdout) from `src/output-parser.ts`. -/
def parseUpdateTrafficResponse (stdout : String) :
    Except String DeployCloudRunOutputs :=
  match jsPresence stdout with
  | none => Except.ok ⟨none⟩
  | some s =>
    if s = "\x7b\x7d" ∨ s = "[]" then Except.ok ⟨none⟩
    else
      match jsonParse s with
      | none => Except.error (utParseErrMsg jsSyntaxErrorText s)
      | some j =>
        match utExtract j with
        | Except.ok o => Except.ok o
        | Except.error _ => Except.error (utParseErrMsg jsTypeErrorText s)

example : parseDeployResponse "\x7b\"status\":\x7b\"url\":\"https://a.example\"\x7d\x7d" "" =
    Except.ok ⟨some (Json.str "https://a.example")⟩ := rfl
example : parseDeployResponse
    "\x7b\"status\":\x7b\"url\":\"https://a.example\",\"traffic\":[\x7b\"tag\":\"t1\",\"url\":\"https://t1---a.example\"\x7d]\x7d\x7d"
    "t1" = Except.ok ⟨some (Json.str "https://t1---a.example")⟩ := rfl
example : parseUpdateTrafficResponse
    "[\x7b\"serviceUrl\":\"https://s\",\"urls\":[]\x7d,\x7b\"serviceUrl\":\"https://s\",\"urls\":[\"https://tag1---s\"]\x7d]"
    = Except.ok ⟨some (Json.str "https://tag1---s")⟩ := rfl
example : parseUpdateTrafficResponse "[]" = Except.ok ⟨none⟩ := rfl

/-! ## Command Builder (`src/main.ts`, newest revision)

The pure command-construction logic of `run()` is embedded as
`buildCommandPlan`.  I/O collaborators are injected through the request:
the parsed metadata YAML (`readFile` + `parseYAML`), the compiled key/value
mappings (`parseKVString`, `parseKVStringAndFile`, `parseCSV` from
actions-utils — external boundary parsing per the spec) and the
`GITHUB_SHA` environment variable.  Raw string inputs keep JavaScript
truthiness: the empty string means "not set". -/

/-- Result of reading and YAML-parsing the metadata file: the two fields
`run()` inspects. -/
structure MetaDoc where
  name : Option String
  kind : Option String

/-- The validated action inputs consumed by `run()`. -/
structure DeployRequest where
  image : String
  service : String
  job : String
  metadata : String
  metadataDoc : MetaDoc
  projectId : String
  gcloudComponent : String
  compiledEnvVars : List (String × String)
  envVarsUpdateStrategy : String
  secrets : List (String × String)
  secretsUpdateStrategy : String
  region : List String
  source : String
  suffix : String
  tag : String
  timeout : String
  noTraffic : Bool
  revTraffic : String
  tagTraffic : String
  labels : List (String × String)
  skipDefaultLabels : Bool
  flags : String
  updateTrafficFlags : String
  githubSha : Option String

/-- Which parsing rules apply to a command's stdout
(`ResponseTypes` in the source; the spec calls these
`ServiceOrJobDescriptor` and `TrafficAssignmentList`). -/
inductive ResponseType where
  | DEPLOY : ResponseType
  | UPDATE_TRAFFIC : ResponseType
deriving DecidableEq

/-- A command plan: argument vectors in execution order, each tagged with
the response shape its stdout is parsed under. -/
abbrev CommandPlan := List (ResponseType × List String)

/-- Modelled from the spec: the key/value joining rule
`key1=value1,key2=value2` used for the external `joinKVStringForGCloud`
helper (actions-utils is outside this repository; `kvToString` in an
earlier revision of `main.ts` and spec section 4.1 both state this exact
rule). -/
def joinKV (kv : List (String × String)) : String :=
  String.intercalate "," (kv.map (fun p => p.1 ++ "=" ++ p.2))

/-- Embedding of defaultLabels() from `main.ts`: `managed-by` always, `commit-sha`
only when `GITHUB_SHA` is set and non-empty; values lowercased. -/
def defaultLabels (githubSha : Option String) : List (String × String) :=
  [("managed-by", jsToLowerCase "github-actions")] ++
    (match githubSha with
     | some v => if v = "" then [] else [("commit-sha", jsToLowerCase v)]
     | none => [])

/-- Semantics of Object.assign on string records: keys of `base` in
order with values overridden by `extra`, then new keys of `extra` in
order. -/
def objectAssign (base extra : List (String × String)) :
    List (String × String) :=
  base.map (fun p =>
    match List.lookup p.1 extra with
    | some v => (p.1, v)
    | none => p) ++
  extra.filter (fun p => (List.lookup p.1 base).isNone)

/-- Embedding of setEnvVarsFlags from `main.ts`: choose the flag by update strategy,
rejecting anything but the lowercase literals, and only when the compiled
mapping is non-empty. -/
def setEnvVarsFlags (cmd : List String) (compiled : List (String × String))
    (strategy : String) : Except String (List String) :=
  if compiled.isEmpty then Except.ok cmd
  else if strategy = "overwrite" then
    Except.ok (cmd ++ ["--set-env-vars", joinKV compiled])
  else if strategy = "merge" then
    Except.ok (cmd ++ ["--update-env-vars", joinKV compiled])
  else
    Except.error ("Invalid \"env_vars_update_strategy\" value \"" ++ strategy ++
      "\", valid values are \"overwrite\" and \"merge\".")

/-- Embedding of setSecretsFlags from `main.ts`. -/
def setSecretsFlags (cmd : List String) (secrets : List (String × String))
    (strategy : String) : Except String (List String) :=
  if secrets.isEmpty then Except.ok cmd
  else if strategy = "overwrite" then
    Except.ok (cmd ++ ["--set-secrets", joinKV secrets])
  else if strategy = "merge" then
    Except.ok (cmd ++ ["--update-secrets", joinKV secrets])
  else
    Except.error ("Invalid \"secrets_update_strategy\" value \"" ++ strategy ++
      "\", valid values are \"overwrite\" and \"merge\".")

/-- The jobs-branch fix-up: `deployCmd[deployCmd.indexOf('--update-secrets')]
= '--set-secrets'` (first occurrence only). -/
def replaceUpdateSecrets : List String → List String
  | [] => []
  | x :: xs =>
      if x = "--update-secrets" then "--set-secrets" :: xs
      else x :: replaceUpdateSecrets xs

/-- The text rendered for the metadata `kind` in the unknown-kind error:
JavaScript template interpolation prints `undefined` for a missing
field. -/
def kindText (kind : Option String) : String :=
  match kind with
  | some k => k
  | none => "undefined"

/-- The unknown-kind error message, grouped so that the rendered kind is a
syntactic infix. -/
def unknownKindMsg (kind : Option String) : String :=
  "Unkown metadata type \"" ++ kindText kind ++
    "\", expected \"Job\" or \"Service\""

/-- The effective env-vars update strategy:
`getInput('env_vars_update_strategy') || 'merge'`. -/
def effEnvStrategy (req : DeployRequest) : String :=
  if req.envVarsUpdateStrategy = "" then "merge" else req.envVarsUpdateStrategy

/-- The effective secrets update strategy:
`getInput('secrets_update_strategy') || 'merge'`. -/
def effSecStrategy (req : DeployRequest) : String :=
  if req.secretsUpdateStrategy = "" then "merge" else req.secretsUpdateStrategy

/-- The base-command selection of `run()` (`if (metadata) … else if (job) …
else …`): returns the deploy command before the common suffixes, together
with the effective service name (reassigned from the metadata file when one
is used). -/
def buildBase (req : DeployRequest) : Except String (List String × String) :=
  if req.metadata ≠ "" then
    match req.metadataDoc.name with
    | none => Except.error (req.metadata ++ " is missing \x27metadata.name\x27")
    | some n =>
      if n = "" then Except.error (req.metadata ++ " is missing \x27metadata.name\x27")
      else if req.service ≠ "" ∧ req.service ≠ n then
        Except.error ("service name in " ++ req.metadata ++ " (\"" ++ n ++
          "\") does not match GitHub Actions service input (\"" ++ req.service ++ "\")")
      else if req.metadataDoc.kind = some "Service" then
        Except.ok (["run", "services", "replace", req.metadata], n)
      else if req.metadataDoc.kind = some "Job" then
        Except.ok (["run", "jobs", "replace", req.metadata], n)
      else Except.error (unknownKindMsg req.metadataDoc.kind)
  else if req.job ≠ "" then
    let cmd0 := ["run", "jobs", "deploy", req.job] ++
      (if req.image ≠ "" then ["--image", req.image]
       else if req.source ≠ "" then ["--source", req.source] else [])
    match setEnvVarsFlags cmd0 req.compiledEnvVars (effEnvStrategy req) with
    | Except.error e => Except.error e
    | Except.ok cmd1 =>
      match setSecretsFlags cmd1 req.secrets (effSecStrategy req) with
      | Except.error e => Except.error e
      | Except.ok cmd2 =>
        let cmd3 := replaceUpdateSecrets cmd2
        let compiledLabels :=
          objectAssign (if req.skipDefaultLabels then [] else defaultLabels req.githubSha)
            req.labels
        Except.ok (cmd3 ++
          (if compiledLabels.length > 0 then ["--labels", joinKV compiledLabels] else []),
          req.service)
  else
    let cmd0 := ["run", "deploy", req.service] ++
      (if req.image ≠ "" then ["--image", req.image]
       else if req.source ≠ "" then ["--source", req.source] else [])
    match setEnvVarsFlags cmd0 req.compiledEnvVars (effEnvStrategy req) with
    | Except.error e => Except.error e
    | Except.ok cmd1 =>
      match setSecretsFlags cmd1 req.secrets (effSecStrategy req) with
      | Except.error e => Except.error e
      | Except.ok cmd2 =>
        let cmd3 := cmd2 ++
          (if req.tag ≠ "" then ["--tag", req.tag] else []) ++
          (if req.suffix ≠ "" then ["--revision-suffix", req.suffix] else []) ++
          (if req.noTraffic then ["--no-traffic"] else []) ++
          (if req.timeout ≠ "" then ["--timeout", req.timeout] else [])
        let compiledLabels :=
          objectAssign (if req.skipDefaultLabels then [] else defaultLabels req.githubSha)
            req.labels
        Except.ok (cmd3 ++
          (if compiledLabels.length > 0 then ["--update-labels", joinKV compiledLabels] else []),
          req.service)

/-! ## Flag tokenizer (`parseFlags` in `src/deploy-cloudrun.ts`)

`flags.match(/(".*?"|[^"\s=]+)+(?=\s*|\s*$)/g)`: a global scan for maximal
runs of units, a unit being a double-quoted chunk (lazy, `.` excluding line
terminators) or a run of characters other than quote, whitespace and `=`.
The trailing lookahead always succeeds and contributes nothing.  `null`
(no match anywhere) is modelled by the empty list, which the caller treats
identically. -/

/-- A separator character of the pattern: whitespace or `=`. -/
def flagDelim (c : Char) : Bool :=
  jsWs c || c = '='

/-- A character usable inside the regex unit `[^"\s=]+`. -/
def plainChar (c : Char) : Bool :=
  !(c = '"' || flagDelim c)

/-- A character the lazy quoted body `.*?` can consume before the closing
quote. -/
def quoteBodyChar (c : Char) : Bool :=
  c ≠ '"' && jsDot c

/-- Try the regex unit `".*?"` at the head: the lazy body stops at the
first quote, which `.` must be able to reach (no line terminator
between). -/
def quotedUnitAt : List Char → Option (List Char × List Char)
  | [] => none
  | c :: rest =>
      if c = '"' then
        let inside := rest.takeWhile quoteBodyChar
        match rest.dropWhile quoteBodyChar with
        | '"' :: r2 => some ('"' :: (inside ++ ['"']), r2)
        | _ => none
      else none

/-- Try the regex unit `[^"\s=]+` at the head (greedy). -/
def plainUnitAt (cs : List Char) : Option (List Char × List Char) :=
  let tk := cs.takeWhile plainChar
  if tk.isEmpty then none else some (tk, cs.dropWhile plainChar)

/-- One unit, quoted alternative first as in the pattern. -/
def unitAt (cs : List Char) : Option (List Char × List Char) :=
  match quotedUnitAt cs with
  | some r => some r
  | none => plainUnitAt cs

/-- Greedy `+` over units: concatenate as many further units as match. -/
def unitsFrom : Nat → List Char → List Char → (List Char × List Char)
  | 0, cs, acc => (acc, cs)
  | Nat.succ f, cs, acc =>
    match unitAt cs with
    | some (u, rest) => unitsFrom f rest (acc ++ u)
    | none => (acc, cs)

/-- One whole regex match attempted at the head of the input. -/
def tokenAt (cs : List Char) : Option (List Char × List Char) :=
  match unitAt cs with
  | none => none
  | some (u, rest) =>
    let p := unitsFrom rest.length rest u
    some (p.1, p.2)

/-- The global scan: like `RegExp.exec` in a loop, a failed attempt
advances one character. -/
def flagScan : Nat → List Char → List (List Char)
  | 0, _ => []
  | Nat.succ _, [] => []
  | Nat.succ f, c :: rest =>
    match tokenAt (c :: rest) with
    | some (tk, r2) => tk :: flagScan f r2
    | none => flagScan f rest

/-- Embedding of parseFlags from `src/deploy-cloudrun.ts`. -/
def parseFlags (s : String) : List String :=
  (flagScan s.data.length s.data).map String.mk

example : parseFlags "--concurrency=2 --memory=2Gi" =
    ["--concurrency", "2", "--memory", "2Gi"] := rfl
example : parseFlags "--concurrency 2 --memory=\"2 Gi\"" =
    ["--concurrency", "2", "--memory", "\"2 Gi\""] := rfl
example : parseFlags "--flag=\"a b\"" = ["--flag", "\"a b\""] := rfl
example : parseFlags "--flag \"a b\"" = ["--flag", "\"a b\""] := rfl
example : parseFlags "" = [] := rfl

/-! ## Plan assembly and execution order -/

/-- Common suffixes of `run()`: `--format json`, the comma-joined regions,
`--project`, then the tokenized pass-through flags. -/
def commonSuffix (region : List String) (projectId : String) (flags : String) :
    List String :=
  ["--format", "json"] ++
    (if region.length > 0 then
      ["--region", String.intercalate "," (region.filter (fun e => e ≠ ""))]
     else []) ++
    (if projectId ≠ "" then ["--project", projectId] else []) ++
    (if flags ≠ "" then parseFlags flags else [])

/-- A finished command: common suffixes appended, gcloud component
unshifted onto the front. -/
def finishCmd (componentPrefix : List String) (base : List String)
    (region : List String) (projectId : String) (flags : String) : List String :=
  componentPrefix ++ base ++ commonSuffix region projectId flags

/-- True when `gcloudComponent` is present but neither `alpha` nor `beta`
(`if (gcloudComponent && gcloudComponent !== 'alpha' && gcloudComponent !==
'beta')`). -/
def gcloudComponentBad (req : DeployRequest) : Bool :=
  match jsPresence req.gcloudComponent with
  | some c => !(c = "alpha" || c = "beta")
  | none => false

/-- The argument unshifted onto every command when a gcloud component is
configured. -/
def componentPrefix (req : DeployRequest) : List String :=
  match jsPresence req.gcloudComponent with
  | some c => [c]
  | none => []

/-- The traffic command built by `run()` before the common suffixes. -/
def updateTrafficBase (req : DeployRequest) (svc : String) : List String :=
  ["run", "services", "update-traffic", svc] ++
    (if req.revTraffic ≠ "" then ["--to-revisions", req.revTraffic] else []) ++
    (if req.tagTraffic ≠ "" then ["--to-tags", req.tagTraffic] else [])

/-- The function buildCommandPlan embeds the command-construction phase of `run()`:
fail-fast validations, base-command selection, traffic command, common
suffixes.  The returned plan lists the commands `run()` executes, in
order, tagged with the response shape each stdout is parsed under. -/
def buildCommandPlan (req : DeployRequest) : Except String CommandPlan :=
  if req.revTraffic ≠ "" ∧ req.tagTraffic ≠ "" then
    Except.error "Only one of \x60revision_traffic\x60 or \x60tag_traffic\x60 inputs can be set."
  else if (req.revTraffic ≠ "" ∨ req.tagTraffic ≠ "") ∧ req.service = "" then
    Except.error "No service name set."
  else if req.source ≠ "" ∧ req.image ≠ "" then
    Except.error "Only one of \x60source\x60 or \x60image\x60 inputs can be set."
  else if req.service ≠ "" ∧ req.job ≠ "" then
    Except.error "Only one of \x60service\x60 or \x60job\x60 inputs can be set."
  else if gcloudComponentBad req then
    Except.error ("invalid input received for gcloud_component: " ++
      (jsPresence req.gcloudComponent).getD "")
  else
    match buildBase req with
    | Except.error e => Except.error e
    | Except.ok (base, svc) =>
      Except.ok
        ([(ResponseType.DEPLOY,
           finishCmd (componentPrefix req) base req.region req.projectId req.flags)] ++
         (if req.revTraffic ≠ "" ∨ req.tagTraffic ≠ "" then
           [(ResponseType.UPDATE_TRAFFIC,
             finishCmd (componentPrefix req) (updateTrafficBase req svc)
               req.region req.projectId req.updateTrafficFlags)]
          else []))

/-- Result of one external process execution (`getExecOutput`). -/
structure ExecResult where
  exitCode : Int
  stdout : String
  stderr : String

/-- Parsing the stdout of one command under its response shape. -/
def runOutcome (tag : String) (shape : ResponseType) (out : String) :
    Except String DeployCloudRunOutputs :=
  match shape with
  | ResponseType.DEPLOY => parseDeployResponse out tag
  | ResponseType.UPDATE_TRAFFIC => parseUpdateTrafficResponse out

/-- The non-zero-exit error thrown by `run()`: the echoed command string is
the one captured before execution (always the first, deploy command — the
traffic-failure throw at the end of `run()` reuses the same
`commandString`), while the exit code and stderr come from the failing
execution. -/
def execErrMsg (echoCmd : List String) (r : ExecResult) : String :=
  "failed to execute gcloud command \x60gcloud " ++
    String.intercalate " " echoCmd ++ "\x60: " ++
    (if r.stderr ≠ "" then r.stderr
     else "command exited " ++ toString r.exitCode ++ ", but stderr had no output")

/-- The commands `run()` actually hands to the executor: plan order, and
both a non-zero exit and a parse failure throw before any later command
runs. -/
def execTraceRun (tag : String) (plan : CommandPlan)
    (ex : List String → ExecResult) : List (List String) :=
  match plan with
  | [] => []
  | (shape, cmd) :: rest =>
    let r := ex cmd
    if r.exitCode ≠ 0 then [cmd]
    else
      match runOutcome tag shape r.stdout with
      | Except.error _ => [cmd]
      | Except.ok _ => cmd :: execTraceRun tag rest ex

/-- The execution-and-parsing phase of `run()` with an explicit echoed
command string: execute each plan entry in order, abort on a non-zero exit
or a parse failure, and parse each stdout under the entry's response shape
(`parseDeployResponse` for `DEPLOY`, `parseUpdateTrafficResponse` for
`UPDATE_TRAFFIC`). -/
def runPlanFrom (tag : String) (echoCmd : List String) (plan : CommandPlan)
    (ex : List String → ExecResult) : Except String (List DeployCloudRunOutputs) :=
  match plan with
  | [] => Except.ok []
  | (shape, cmd) :: rest =>
    let r := ex cmd
    if r.exitCode ≠ 0 then Except.error (execErrMsg echoCmd r)
    else
      match runOutcome tag shape r.stdout with
      | Except.error e => Except.error e
      | Except.ok o =>
        match runPlanFrom tag echoCmd rest ex with
        | Except.error e => Except.error e
        | Except.ok os => Except.ok (o :: os)

/-- The execution-and-parsing phase of `run()`: failure messages echo the
command string captured from the first (deploy) command. -/
def runPlan (tag : String) (plan : CommandPlan) (ex : List String → ExecResult) :
    Except String (List DeployCloudRunOutputs) :=
  runPlanFrom tag (match plan with | (_, c) :: _ => c | [] => []) plan ex

/-! ## Shared lemmas and witness fixtures -/

/-- A string built around an infix contains that infix. -/
theorem strContains_mid (a s b : String) : strContains (a ++ s ++ b) s :=
  ⟨a.data, b.data, by simp [String.data_append]⟩

/-- A string built by appending onto an infix contains that infix. -/
theorem strContains_suffix (a s : String) : strContains (a ++ s) s :=
  ⟨a.data, [], by simp [String.data_append]⟩

/-- Optional chaining coincides with plain member access on a present
value (`null` has no members either way). -/
theorem jsChain_some (v : Json) (k : String) :
    jsChain (some v) k = jsGetMember v k := by
  cases v <;> rfl

/-- A request with every input unset, used as the base of concrete
witnesses. -/
def emptyRequest : DeployRequest where
  image := ""
  service := ""
  job := ""
  metadata := ""
  metadataDoc := ⟨none, none⟩
  projectId := ""
  gcloudComponent := ""
  compiledEnvVars := []
  envVarsUpdateStrategy := ""
  secrets := []
  secretsUpdateStrategy := ""
  region := ["us-central1"]
  source := ""
  suffix := ""
  tag := ""
  timeout := ""
  noTraffic := false
  revTraffic := ""
  tagTraffic := ""
  labels := []
  skipDefaultLabels := false
  flags := ""
  updateTrafficFlags := ""
  githubSha := none

/-- C4: for both response shapes, a stdout equal to the empty string,
`"{}"` or `"[]"` parses to a result with no URL and raises no error. -/
theorem blank_stdout_parses_to_empty (tag : String) :
    parseDeployResponse "" tag = Except.ok ⟨none⟩ ∧
    parseDeployResponse "\x7b\x7d" tag = Except.ok ⟨none⟩ ∧
    parseDeployResponse "[]" tag = Except.ok ⟨none⟩ ∧
    parseUpdateTrafficResponse "" = Except.ok ⟨none⟩ ∧
    parseUpdateTrafficResponse "\x7b\x7d" = Except.ok ⟨none⟩ ∧
    parseUpdateTrafficResponse "[]" = Except.ok ⟨none⟩ :=
  ⟨rfl, rfl, rfl, rfl, rfl, rfl⟩

/-- C5: a stdout that is present after trimming, is not one of the
blank-ish literals, and is not valid JSON makes both parsers fail, and the
thrown message echoes the offending text (the trimmed stdout, which is the
raw stdout whenever the latter carries no surrounding whitespace). -/
theorem invalid_json_stdout_is_parse_error (stdout tag s : String)
    (hp : jsPresence stdout = some s)
    (hb : ¬(s = "\x7b\x7d" ∨ s = "[]"))
    (hj : jsonParse s = none) :
    (∃ m, parseDeployResponse stdout tag = Except.error m ∧ strContains m s) ∧
    (∃ m, parseUpdateTrafficResponse stdout = Except.error m ∧ strContains m s) ∧
    (jsTrim stdout = stdout → s = stdout) := by
  have hs : s = jsTrim stdout := by
    unfold jsPresence at hp
    by_cases h : jsTrim stdout = "" <;> simp [h] at hp
    exact hp.symm
  refine ⟨?_, ?_, fun ht => by rw [hs, ht]⟩
  · refine ⟨deployParseErrMsg jsSyntaxErrorText s tag, ?_, ?_⟩
    · unfold parseDeployResponse
      rw [hp]
      show (if s = "\x7b\x7d" ∨ s = "[]" then Except.ok ⟨none⟩
        else match jsonParse s with
          | none => Except.error (deployParseErrMsg jsSyntaxErrorText s tag)
          | some j =>
            match deployExtract j tag with
            | Except.ok o => Except.ok o
            | Except.error _ => Except.error (deployParseErrMsg jsTypeErrorText s tag)) =
        Except.error (deployParseErrMsg jsSyntaxErrorText s tag)
      rw [if_neg hb, hj]
    · exact strContains_mid _ s _
  · refine ⟨utParseErrMsg jsSyntaxErrorText s, ?_, ?_⟩
    · unfold parseUpdateTrafficResponse
      rw [hp]
      show (if s = "\x7b\x7d" ∨ s = "[]" then Except.ok ⟨none⟩
        else match jsonParse s with
          | none => Except.error (utParseErrMsg jsSyntaxErrorText s)
          | some j =>
            match utExtract j with
            | Except.ok o => Except.ok o
            | Except.error _ => Except.error (utParseErrMsg jsTypeErrorText s)) =
        Except.error (utParseErrMsg jsSyntaxErrorText s)
      rw [if_neg hb, hj]
    · exact strContains_suffix _ s

/-- Witness for C5 at the concrete stdout `not json`. -/
theorem invalid_json_stdout_is_parse_error_witness :
    (∃ m, parseDeployResponse "not json" "t" = Except.error m ∧
      strContains m "not json") ∧
    (∃ m, parseUpdateTrafficResponse "not json" = Except.error m ∧
      strContains m "not json") :=
  ⟨(invalid_json_stdout_is_parse_error "not json" "t" "not json" rfl
      (by decide) rfl).1,
   (invalid_json_stdout_is_parse_error "not json" "t" "not json" rfl
      (by decide) rfl).2.1⟩

/-- C9: the injected default labels always carry
`managed-by=github-actions`; `commit-sha` carries the lowercased
`GITHUB_SHA` and is omitted entirely when the variable is unset or
empty. -/
theorem defaultLabels_commit_sha (sha : String) (h : sha ≠ "") :
    defaultLabels (some sha) =
      [("managed-by", "github-actions"), ("commit-sha", jsToLowerCase sha)] ∧
    defaultLabels none = [("managed-by", "github-actions")] ∧
    defaultLabels (some "") = [("managed-by", "github-actions")] := by
  have e1 : jsToLowerCase "github-actions" = "github-actions" := by decide
  refine ⟨?_, by decide, by decide⟩
  unfold defaultLabels
  rw [e1]
  show [("managed-by", "github-actions")] ++
      (if sha = "" then [] else [("commit-sha", jsToLowerCase sha)]) =
    [("managed-by", "github-actions"), ("commit-sha", jsToLowerCase sha)]
  rw [if_neg h]
  rfl

/-- Witness for C9 at a concrete mixed-case commit SHA. -/
theorem defaultLabels_commit_sha_witness :
    defaultLabels (some "AbC123eF") =
      [("managed-by", "github-actions"), ("commit-sha", "abc123ef")] ∧
    defaultLabels none = [("managed-by", "github-actions")] := by
  have h := defaultLabels_commit_sha "AbC123eF" (by decide)
  have e : jsToLowerCase "AbC123eF" = "abc123ef" := by decide
  rw [e] at h
  exact ⟨h.1, h.2.1⟩

/-! ## C2: deploy-response URL extraction -/

/-- Evaluating findTagEntry on a list without `null` elements is total and returns
the first entry whose `tag` matches. -/
theorem findTagEntry_eq_find (es : List Json) (tag : String)
    (h : ∀ e ∈ es, e ≠ Json.null) :
    findTagEntry es tag = Except.ok (es.find? (tagMatches tag)) := by
  induction es with
  | nil => rfl
  | cons e rest ih =>
    have he : e ≠ Json.null := h e (List.mem_cons_self e rest)
    have hrest : ∀ x ∈ rest, x ≠ Json.null := fun x hx => h x (List.mem_cons_of_mem e hx)
    rw [List.find?_cons]
    cases e with
    | null => exact absurd rfl he
    | bool b =>
      show (if tagMatches tag (Json.bool b) then Except.ok (some (Json.bool b))
        else findTagEntry rest tag) = _
      by_cases hm : tagMatches tag (Json.bool b) <;> simp [hm, ih hrest]
    | num n =>
      show (if tagMatches tag (Json.num n) then Except.ok (some (Json.num n))
        else findTagEntry rest tag) = _
      by_cases hm : tagMatches tag (Json.num n) <;> simp [hm, ih hrest]
    | str s =>
      show (if tagMatches tag (Json.str s) then Except.ok (some (Json.str s))
        else findTagEntry rest tag) = _
      by_cases hm : tagMatches tag (Json.str s) <;> simp [hm, ih hrest]
    | arr xs =>
      show (if tagMatches tag (Json.arr xs) then Except.ok (some (Json.arr xs))
        else findTagEntry rest tag) = _
      by_cases hm : tagMatches tag (Json.arr xs) <;> simp [hm, ih hrest]
    | obj fs =>
      show (if tagMatches tag (Json.obj fs) then Except.ok (some (Json.obj fs))
        else findTagEntry rest tag) = _
      by_cases hm : tagMatches tag (Json.obj fs) <;> simp [hm, ih hrest]

/-- Reduction of `parseDeployResponse` to `deployExtract` once presence,
blankness and JSON parsing are settled. -/
theorem parseDeployResponse_of_parse (stdout tag s : String) (j : Json)
    (hp : jsPresence stdout = some s)
    (hb : ¬(s = "\x7b\x7d" ∨ s = "[]"))
    (hj : jsonParse s = some j)
    (o : DeployCloudRunOutputs)
    (hex : deployExtract j tag = Except.ok o) :
    parseDeployResponse stdout tag = Except.ok o := by
  unfold parseDeployResponse
  simp only [hp, hj, hex, if_neg hb]

/-- Reduction of `parseUpdateTrafficResponse` to `utExtract` once presence,
blankness and JSON parsing are settled. -/
theorem parseUpdateTrafficResponse_of_parse (stdout s : String) (j : Json)
    (hp : jsPresence stdout = some s)
    (hb : ¬(s = "\x7b\x7d" ∨ s = "[]"))
    (hj : jsonParse s = some j)
    (o : DeployCloudRunOutputs)
    (hex : utExtract j = Except.ok o) :
    parseUpdateTrafficResponse stdout = Except.ok o := by
  unfold parseUpdateTrafficResponse
  simp only [hp, hj, hex, if_neg hb]

/-- C2 (core): URL selection of `deployExtract` on a well-shaped
descriptor. -/
theorem deployExtract_url_selection (j st : Json) (tag : String)
    (hst : jsChain (some j) "status" = some st) :
    (tag = "" → deployExtract j tag = Except.ok ⟨jsGetMember st "url"⟩) ∧
    (tag ≠ "" →
      ((jsGetMember st "traffic" = none ∨ jsGetMember st "traffic" = some Json.null) →
        deployExtract j tag = Except.ok ⟨jsGetMember st "url"⟩) ∧
      (∀ es, jsGetMember st "traffic" = some (Json.arr es) →
        (∀ e ∈ es, e ≠ Json.null) →
        ((es.find? (tagMatches tag) = none →
            deployExtract j tag = Except.ok ⟨jsGetMember st "url"⟩) ∧
         (∀ e, es.find? (tagMatches tag) = some e →
            deployExtract j tag = Except.ok ⟨jsGetMember e "url"⟩)))) := by
  have hurl : jsChain (jsChain (some j) "status") "url" = jsGetMember st "url" := by
    rw [hst, jsChain_some]
  constructor
  · intro ht
    unfold deployExtract
    simp only [hurl, if_pos ht]
  · intro ht
    constructor
    · intro htr
      unfold deployExtract
      cases htr with
      | inl h1 => simp only [hurl, if_neg ht, hst, h1, jsChain_some]
      | inr h1 => simp only [hurl, if_neg ht, hst, h1, jsChain_some]
    · intro es hes hnn
      have hfind := findTagEntry_eq_find es tag hnn
      constructor
      · intro hnone
        unfold deployExtract
        simp only [hurl, if_neg ht, hst, hes, hfind, hnone, jsChain_some]
      · intro e hsome
        unfold deployExtract
        simp only [hurl, if_neg ht, hst, hes, hfind, hsome, jsChain_some]

/-- C2: for a non-empty valid service-descriptor response, the result URL
is the top-level `status.url`; when the request carried a traffic tag and
some traffic entry bears exactly that tag, that (first such) entry's URL
supersedes it; a carried tag without a matching entry keeps the default
URL and raises no error. -/
theorem parseDeployResponse_url_selection (stdout tag s : String) (j st : Json)
    (hp : jsPresence stdout = some s)
    (hb : ¬(s = "\x7b\x7d" ∨ s = "[]"))
    (hj : jsonParse s = some j)
    (hst : jsChain (some j) "status" = some st) :
    (tag = "" →
      parseDeployResponse stdout tag = Except.ok ⟨jsGetMember st "url"⟩) ∧
    (tag ≠ "" →
      ((jsGetMember st "traffic" = none ∨ jsGetMember st "traffic" = some Json.null) →
        parseDeployResponse stdout tag = Except.ok ⟨jsGetMember st "url"⟩) ∧
      (∀ es, jsGetMember st "traffic" = some (Json.arr es) →
        (∀ e ∈ es, e ≠ Json.null) →
        ((es.find? (tagMatches tag) = none →
            parseDeployResponse stdout tag = Except.ok ⟨jsGetMember st "url"⟩) ∧
         (∀ e, es.find? (tagMatches tag) = some e →
            parseDeployResponse stdout tag = Except.ok ⟨jsGetMember e "url"⟩)))) := by
  have h := deployExtract_url_selection j st tag hst
  refine ⟨fun ht => ?_, fun ht => ⟨fun htr => ?_, fun es hes hnn => ⟨fun hnone => ?_, fun e hsome => ?_⟩⟩⟩
  · exact parseDeployResponse_of_parse stdout tag s j hp hb hj _ (h.1 ht)
  · exact parseDeployResponse_of_parse stdout tag s j hp hb hj _ ((h.2 ht).1 htr)
  · exact parseDeployResponse_of_parse stdout tag s j hp hb hj _
      (((h.2 ht).2 es hes hnn).1 hnone)
  · exact parseDeployResponse_of_parse stdout tag s j hp hb hj _
      (((h.2 ht).2 es hes hnn).2 e hsome)

/-! ## C3: update-traffic-response URL selection -/

/-- Shape of a traffic item acceptable to the claim: its `urls` member is
absent, `null`, or a genuine array. -/
def urlsShapeOK (e : Json) : Bool :=
  match jsGetMember e "urls" with
  | none => true
  | some Json.null => true
  | some (Json.arr _) => true
  | some _ => false

/-- An item carrying a non-empty per-tag URL list. -/
def hasTagUrls (e : Json) : Bool :=
  match jsGetMember e "urls" with
  | some (Json.arr (_ :: _)) => true
  | _ => false

/-- The first per-tag URL of an item. -/
def firstTagUrl (e : Json) : Option Json :=
  match jsGetMember e "urls" with
  | some (Json.arr (y :: _)) => some y
  | _ => none

/-- The scan loop keeps the default URL unless some item has a non-empty
URL list, in which case the first such item (in array order) contributes
its first URL. -/
theorem scanTagUrls_eq (es : List Json) (u : Option Json)
    (h : ∀ e ∈ es, urlsShapeOK e = true) :
    scanTagUrls es u =
      (match es.find? hasTagUrls with
       | some e => firstTagUrl e
       | none => u) := by
  induction es with
  | nil => rfl
  | cons e rest ih =>
    have he : urlsShapeOK e = true := h e (List.mem_cons_self e rest)
    have hrest : ∀ x ∈ rest, urlsShapeOK x = true :=
      fun x hx => h x (List.mem_cons_of_mem e hx)
    rw [List.find?_cons]
    cases e with
    | null =>
      rw [show hasTagUrls Json.null = false from rfl]
      exact ih hrest
    | bool b =>
      rw [show hasTagUrls (Json.bool b) = false from rfl]
      exact ih hrest
    | num n =>
      rw [show hasTagUrls (Json.num n) = false from rfl]
      exact ih hrest
    | str s =>
      rw [show hasTagUrls (Json.str s) = false from rfl]
      exact ih hrest
    | arr xs =>
      rw [show hasTagUrls (Json.arr xs) = false from rfl]
      exact ih hrest
    | obj fs =>
      cases hm : List.lookup "urls" fs.reverse with
      | none =>
        have hf : hasTagUrls (Json.obj fs) = false := by
          simp [hasTagUrls, jsGetMember, hm]
        have hs : scanTagUrls (Json.obj fs :: rest) u = scanTagUrls rest u := by
          simp [scanTagUrls, jsGetMember, hm]
        rw [hf, hs]
        exact ih hrest
      | some v =>
        cases v with
        | null =>
          have hf : hasTagUrls (Json.obj fs) = false := by
            simp [hasTagUrls, jsGetMember, hm]
          have hs : scanTagUrls (Json.obj fs :: rest) u = scanTagUrls rest u := by
            simp [scanTagUrls, jsGetMember, hm]
          rw [hf, hs]
          exact ih hrest
        | arr ys =>
          cases ys with
          | nil =>
            have hf : hasTagUrls (Json.obj fs) = false := by
              simp [hasTagUrls, jsGetMember, hm]
            have hs : scanTagUrls (Json.obj fs :: rest) u = scanTagUrls rest u := by
              simp [scanTagUrls, jsGetMember, hm]
            rw [hf, hs]
            exact ih hrest
          | cons y t =>
            have hf : hasTagUrls (Json.obj fs) = true := by
              simp [hasTagUrls, jsGetMember, hm]
            have hs : scanTagUrls (Json.obj fs :: rest) u = some y := by
              simp [scanTagUrls, jsGetMember, hm]
            have hfi : firstTagUrl (Json.obj fs) = some y := by
              simp [firstTagUrl, jsGetMember, hm]
            rw [hf, hs]
            simp only []
            exact hfi.symm
        | bool b => simp [urlsShapeOK, jsGetMember, hm] at he
        | num n => simp [urlsShapeOK, jsGetMember, hm] at he
        | str s2 => simp [urlsShapeOK, jsGetMember, hm] at he
        | obj f2 => simp [urlsShapeOK, jsGetMember, hm] at he

/-- C3: for a non-empty valid traffic-assignment array, the result URL is
the `serviceUrl` of the first item, unless some item carries a non-empty
per-tag URL list, in which case the first URL of the first such item (in
array order) wins. -/
theorem parseUpdateTrafficResponse_url_selection (stdout s : String)
    (e0 : Json) (es : List Json)
    (hp : jsPresence stdout = some s)
    (hb : ¬(s = "\x7b\x7d" ∨ s = "[]"))
    (hj : jsonParse s = some (Json.arr (e0 :: es)))
    (hshape : ∀ e ∈ e0 :: es, urlsShapeOK e = true) :
    ((e0 :: es).find? hasTagUrls = none →
      parseUpdateTrafficResponse stdout =
        Except.ok ⟨jsChain (some e0) "serviceUrl"⟩) ∧
    (∀ e, (e0 :: es).find? hasTagUrls = some e →
      parseUpdateTrafficResponse stdout = Except.ok ⟨firstTagUrl e⟩) := by
  have hscan := scanTagUrls_eq (e0 :: es) (jsChain (some e0) "serviceUrl") hshape
  have hzero : jsChain (jsIndexZero (Json.arr (e0 :: es))) "serviceUrl" =
      jsChain (some e0) "serviceUrl" := rfl
  constructor
  · intro hnone
    refine parseUpdateTrafficResponse_of_parse stdout s (Json.arr (e0 :: es)) hp hb hj _ ?_
    show Except.ok (⟨scanTagUrls (e0 :: es)
        (jsChain (jsIndexZero (Json.arr (e0 :: es))) "serviceUrl")⟩ :
        DeployCloudRunOutputs) = _
    rw [hzero, hscan, hnone]
  · intro e hsome
    refine parseUpdateTrafficResponse_of_parse stdout s (Json.arr (e0 :: es)) hp hb hj _ ?_
    show Except.ok (⟨scanTagUrls (e0 :: es)
        (jsChain (jsIndexZero (Json.arr (e0 :: es))) "serviceUrl")⟩ :
        DeployCloudRunOutputs) = _
    rw [hzero, hscan, hsome]

/-- Concrete update-traffic stdout used by the C3 witness: the first item
has an empty URL list, the second carries a tagged URL. -/
def demoTrafficStdout : String :=
  "[\x7b\"serviceUrl\":\"https://s\",\"urls\":[]\x7d,\x7b\"serviceUrl\":\"https://s\",\"urls\":[\"https://tag1---s\"]\x7d]"

/-- First item of the C3 witness array. -/
def demoTrafficItem0 : Json :=
  Json.obj [("serviceUrl", Json.str "https://s"), ("urls", Json.arr [])]

/-- Second item of the C3 witness array. -/
def demoTrafficItem1 : Json :=
  Json.obj [("serviceUrl", Json.str "https://s"),
    ("urls", Json.arr [Json.str "https://tag1---s"])]

/-- Witness for C3: the first item with a non-empty URL list wins. -/
theorem parseUpdateTrafficResponse_url_selection_witness :
    parseUpdateTrafficResponse demoTrafficStdout =
      Except.ok ⟨some (Json.str "https://tag1---s")⟩ := by
  have h := parseUpdateTrafficResponse_url_selection demoTrafficStdout
    demoTrafficStdout demoTrafficItem0 [demoTrafficItem1] rfl (by decide) rfl
    (by
      intro e he
      simp only [List.mem_cons, List.not_mem_nil, or_false] at he
      cases he with
      | inl h1 => rw [h1]; rfl
      | inr h1 => rw [h1]; rfl)
  exact h.2 demoTrafficItem1 rfl

/-- Concrete deploy stdout used by the C2 witness. -/
def demoDeployStdout : String :=
  "\x7b\"status\":\x7b\"url\":\"https://a.example\",\"traffic\":[\x7b\"tag\":\"t1\",\"url\":\"https://t1---a.example\"\x7d]\x7d\x7d"

/-- The parsed C2 witness descriptor. -/
def demoStatus : Json :=
  Json.obj [("url", Json.str "https://a.example"),
    ("traffic", Json.arr [Json.obj [("tag", Json.str "t1"),
      ("url", Json.str "https://t1---a.example")]])]

/-- The descriptor wrapping `demoStatus`. -/
def demoDescriptor : Json := Json.obj [("status", demoStatus)]

/-- The single traffic entry of the C2 witness. -/
def demoEntry : Json :=
  Json.obj [("tag", Json.str "t1"), ("url", Json.str "https://t1---a.example")]

/-- Witness for C2: without a tag the top-level status URL is returned;
with tag `t1` the matching traffic entry's URL supersedes it. -/
theorem parseDeployResponse_url_selection_witness :
    parseDeployResponse demoDeployStdout "" =
      Except.ok ⟨some (Json.str "https://a.example")⟩ ∧
    parseDeployResponse demoDeployStdout "t1" =
      Except.ok ⟨some (Json.str "https://t1---a.example")⟩ := by
  constructor
  · have h := parseDeployResponse_url_selection demoDeployStdout ""
      demoDeployStdout demoDescriptor demoStatus rfl (by decide) rfl rfl
    exact h.1 rfl
  · have h := parseDeployResponse_url_selection demoDeployStdout "t1"
      demoDeployStdout demoDescriptor demoStatus rfl (by decide) rfl rfl
    have hnn : ∀ e ∈ [demoEntry], e ≠ Json.null := by
      intro e he
      simp only [List.mem_singleton] at he
      rw [he]
      intro hc
      exact Json.noConfusion hc
    exact ((h.2 (by decide)).2 [demoEntry] rfl hnn).2 demoEntry rfl

/-! ## Builder lemmas -/

/-- Validity of the env-vars strategy as the builder checks it: nothing to
validate, or one of the two lowercase literals. -/
def envStrategyOK (req : DeployRequest) : Prop :=
  req.compiledEnvVars = [] ∨ effEnvStrategy req = "overwrite" ∨
    effEnvStrategy req = "merge"

/-- Validity of the secrets strategy as the builder checks it. -/
def secretsStrategyOK (req : DeployRequest) : Prop :=
  req.secrets = [] ∨ effSecStrategy req = "overwrite" ∨
    effSecStrategy req = "merge"

/-- The helper setEnvVarsFlags only ever appends, and succeeds under a valid
strategy. -/
theorem setEnvVarsFlags_ok (cmd : List String) (vars : List (String × String))
    (strat : String) (h : vars = [] ∨ strat = "overwrite" ∨ strat = "merge") :
    ∃ ext, setEnvVarsFlags cmd vars strat = Except.ok (cmd ++ ext) := by
  unfold setEnvVarsFlags
  by_cases h1 : vars.isEmpty = true
  · exact ⟨[], by rw [if_pos h1, List.append_nil]⟩
  · rw [if_neg h1]
    by_cases h2 : strat = "overwrite"
    · exact ⟨_, by rw [if_pos h2]⟩
    · rw [if_neg h2]
      by_cases h3 : strat = "merge"
      · exact ⟨_, by rw [if_pos h3]⟩
      · rcases h with h4 | h4 | h4
        · exact absurd (by rw [h4]; rfl) h1
        · exact absurd h4 h2
        · exact absurd h4 h3

/-- The helper setSecretsFlags only ever appends, and succeeds under a valid
strategy. -/
theorem setSecretsFlags_ok (cmd : List String) (vars : List (String × String))
    (strat : String) (h : vars = [] ∨ strat = "overwrite" ∨ strat = "merge") :
    ∃ ext, setSecretsFlags cmd vars strat = Except.ok (cmd ++ ext) := by
  unfold setSecretsFlags
  by_cases h1 : vars.isEmpty = true
  · exact ⟨[], by rw [if_pos h1, List.append_nil]⟩
  · rw [if_neg h1]
    by_cases h2 : strat = "overwrite"
    · exact ⟨_, by rw [if_pos h2]⟩
    · rw [if_neg h2]
      by_cases h3 : strat = "merge"
      · exact ⟨_, by rw [if_pos h3]⟩
      · rcases h with h4 | h4 | h4
        · exact absurd (by rw [h4]; rfl) h1
        · exact absurd h4 h2
        · exact absurd h4 h3

/-- In service mode (no metadata, no job) the base command starts with
`run deploy <service>` and the effective service name is the input one. -/
theorem buildBase_service (req : DeployRequest)
    (hm : req.metadata = "") (hj : req.job = "")
    (he : envStrategyOK req) (hs : secretsStrategyOK req) :
    ∃ rest, buildBase req =
      Except.ok (["run", "deploy", req.service] ++ rest, req.service) := by
  unfold buildBase
  rw [if_neg (by simp [hm]), if_neg (by simp [hj])]
  obtain ⟨e1, he1⟩ := setEnvVarsFlags_ok
    (["run", "deploy", req.service] ++
      (if req.image ≠ "" then ["--image", req.image]
       else if req.source ≠ "" then ["--source", req.source] else []))
    req.compiledEnvVars (effEnvStrategy req) he
  obtain ⟨e2, he2⟩ := setSecretsFlags_ok
    ((["run", "deploy", req.service] ++
      (if req.image ≠ "" then ["--image", req.image]
       else if req.source ≠ "" then ["--source", req.source] else [])) ++ e1)
    req.secrets (effSecStrategy req) hs
  simp only [he1, he2]
  exact ⟨_, by simp only [List.append_assoc]; rfl⟩

/-- One step of `execTraceRun`. -/
theorem execTraceRun_cons (tag : String) (shape : ResponseType)
    (cmd : List String) (rest : CommandPlan) (ex : List String → ExecResult) :
    execTraceRun tag ((shape, cmd) :: rest) ex =
      (if (ex cmd).exitCode ≠ 0 then [cmd]
       else
        match runOutcome tag shape (ex cmd).stdout with
        | Except.error _ => [cmd]
        | Except.ok _ => cmd :: execTraceRun tag rest ex) := rfl

/-- One step of `runPlanFrom`. -/
theorem runPlanFrom_cons (tag : String) (echoCmd : List String)
    (shape : ResponseType) (cmd : List String) (rest : CommandPlan)
    (ex : List String → ExecResult) :
    runPlanFrom tag echoCmd ((shape, cmd) :: rest) ex =
      (if (ex cmd).exitCode ≠ 0 then Except.error (execErrMsg echoCmd (ex cmd))
       else
        match runOutcome tag shape (ex cmd).stdout with
        | Except.error e => Except.error e
        | Except.ok o =>
          match runPlanFrom tag echoCmd rest ex with
          | Except.error e => Except.error e
          | Except.ok os => Except.ok (o :: os)) := rfl

/-- Running runPlan on a deploy-then-update-traffic pair: the deploy stdout
is parsed with `parseDeployResponse`, the traffic stdout with
`parseUpdateTrafficResponse`, a failing exit or parse stops everything, and
both failure messages echo the deploy command (as `run()` reuses its
`commandString`). -/
theorem runPlan_pair (tag : String) (d t : List String)
    (ex : List String → ExecResult) :
    runPlan tag [(ResponseType.DEPLOY, d), (ResponseType.UPDATE_TRAFFIC, t)] ex =
      (if (ex d).exitCode ≠ 0 then Except.error (execErrMsg d (ex d))
       else
        match parseDeployResponse (ex d).stdout tag with
        | Except.error e => Except.error e
        | Except.ok o1 =>
          if (ex t).exitCode ≠ 0 then Except.error (execErrMsg d (ex t))
          else
            match parseUpdateTrafficResponse (ex t).stdout with
            | Except.error e => Except.error e
            | Except.ok o2 => Except.ok [o1, o2]) := by
  show runPlanFrom tag d
      [(ResponseType.DEPLOY, d), (ResponseType.UPDATE_TRAFFIC, t)] ex = _
  by_cases h1 : (ex d).exitCode ≠ 0
  · simp only [runPlanFrom_cons, if_pos h1]
  · simp only [runPlanFrom_cons, if_neg h1, runOutcome]
    cases hpd : parseDeployResponse (ex d).stdout tag with
    | error e => rfl
    | ok o1 =>
      by_cases h2 : (ex t).exitCode ≠ 0
      · simp only [if_pos h2]
      · simp only [if_neg h2]
        cases hut : parseUpdateTrafficResponse (ex t).stdout with
        | error e => rfl
        | ok o2 => rfl

/-- C1: a request naming a service, carrying an image or source, and
carrying exactly one traffic spec yields a plan of exactly two commands:
first `run deploy`, parsed under the descriptor rules (`DEPLOY`), then
`run services update-traffic`, parsed under the traffic-list rules
(`UPDATE_TRAFFIC`); the update-traffic command is executed only when the
deploy command has completed successfully. -/
theorem buildCommandPlan_two_commands (req : DeployRequest)
    (hsvc : req.service ≠ "") (hjob : req.job = "") (hmeta : req.metadata = "")
    (himg : req.image ≠ "" ∨ req.source ≠ "")
    (hnotboth : ¬(req.source ≠ "" ∧ req.image ≠ ""))
    (hxor : (req.revTraffic ≠ "" ∧ req.tagTraffic = "") ∨
            (req.revTraffic = "" ∧ req.tagTraffic ≠ ""))
    (hcomp : gcloudComponentBad req = false)
    (henv : envStrategyOK req) (hsec : secretsStrategyOK req) :
    ∃ d t drest trest,
      d = componentPrefix req ++ ["run", "deploy", req.service] ++ drest ∧
      t = componentPrefix req ++
        ["run", "services", "update-traffic", req.service] ++ trest ∧
      buildCommandPlan req =
        Except.ok [(ResponseType.DEPLOY, d), (ResponseType.UPDATE_TRAFFIC, t)] ∧
      (∀ ex : List String → ExecResult, (ex d).exitCode ≠ 0 →
        execTraceRun req.tag
          [(ResponseType.DEPLOY, d), (ResponseType.UPDATE_TRAFFIC, t)] ex = [d]) ∧
      (∀ ex : List String → ExecResult,
        t ∈ execTraceRun req.tag
          [(ResponseType.DEPLOY, d), (ResponseType.UPDATE_TRAFFIC, t)] ex →
        (ex d).exitCode = 0) ∧
      (∀ ex : List String → ExecResult,
        ∀ o1 : DeployCloudRunOutputs, (ex d).exitCode = 0 →
        parseDeployResponse (ex d).stdout req.tag = Except.ok o1 →
        execTraceRun req.tag
          [(ResponseType.DEPLOY, d), (ResponseType.UPDATE_TRAFFIC, t)] ex
          = [d, t]) ∧
      (∀ ex : List String → ExecResult,
        runPlan req.tag
            [(ResponseType.DEPLOY, d), (ResponseType.UPDATE_TRAFFIC, t)] ex =
          (if (ex d).exitCode ≠ 0 then Except.error (execErrMsg d (ex d))
           else
            match parseDeployResponse (ex d).stdout req.tag with
            | Except.error e => Except.error e
            | Except.ok o1 =>
              if (ex t).exitCode ≠ 0 then Except.error (execErrMsg d (ex t))
              else
                match parseUpdateTrafficResponse (ex t).stdout with
                | Except.error e => Except.error e
                | Except.ok o2 => Except.ok [o1, o2])) := by
  obtain ⟨rest, hbase⟩ := buildBase_service req hmeta hjob henv hsec
  have htr : req.revTraffic ≠ "" ∨ req.tagTraffic ≠ "" := by
    rcases hxor with ⟨h1, _⟩ | ⟨_, h2⟩
    · exact Or.inl h1
    · exact Or.inr h2
  have hnb : ¬(req.revTraffic ≠ "" ∧ req.tagTraffic ≠ "") := by
    rcases hxor with ⟨_, h1⟩ | ⟨h1, _⟩ <;> simp [h1]
  have hplan : buildCommandPlan req =
      Except.ok [(ResponseType.DEPLOY,
          finishCmd (componentPrefix req) (["run", "deploy", req.service] ++ rest)
            req.region req.projectId req.flags),
        (ResponseType.UPDATE_TRAFFIC,
          finishCmd (componentPrefix req) (updateTrafficBase req req.service)
            req.region req.projectId req.updateTrafficFlags)] := by
    unfold buildCommandPlan
    rw [if_neg hnb, if_neg (by simp [hsvc]), if_neg hnotboth,
      if_neg (by simp [hjob]), if_neg (by simp [hcomp])]
    simp only [hbase, if_pos htr, List.singleton_append]
  have hdt : finishCmd (componentPrefix req)
        (["run", "deploy", req.service] ++ rest)
        req.region req.projectId req.flags ≠
      finishCmd (componentPrefix req) (updateTrafficBase req req.service)
        req.region req.projectId req.updateTrafficFlags := by
    intro he
    simp only [finishCmd, updateTrafficBase, List.append_assoc,
      List.cons_append, List.nil_append] at he
    have h2 := List.append_cancel_left he
    simp at h2
  refine ⟨_, _, rest ++ commonSuffix req.region req.projectId req.flags,
    (if req.revTraffic ≠ "" then ["--to-revisions", req.revTraffic] else []) ++
      (if req.tagTraffic ≠ "" then ["--to-tags", req.tagTraffic] else []) ++
      commonSuffix req.region req.projectId req.updateTrafficFlags,
    ?_, ?_, hplan, ?_, ?_, ?_, ?_⟩
  · simp only [finishCmd, List.append_assoc]
  · simp only [finishCmd, updateTrafficBase, List.append_assoc]
  · intro ex h
    rw [execTraceRun_cons, if_pos h]
  · intro ex hmem
    by_contra h
    rw [execTraceRun_cons, if_pos h] at hmem
    simp only [List.mem_singleton] at hmem
    exact hdt hmem.symm
  · intro ex o1 h hp
    rw [execTraceRun_cons, if_neg (not_not_intro h)]
    simp only [runOutcome, hp]
    rw [execTraceRun_cons]
    by_cases h2 : (ex (finishCmd (componentPrefix req)
        (updateTrafficBase req req.service) req.region req.projectId
        req.updateTrafficFlags)).exitCode ≠ 0
    · rw [if_pos h2]
    · rw [if_neg h2]
      cases hut : runOutcome req.tag ResponseType.UPDATE_TRAFFIC
          (ex (finishCmd (componentPrefix req)
            (updateTrafficBase req req.service) req.region req.projectId
            req.updateTrafficFlags)).stdout with
      | error e => rfl
      | ok o => rfl
  · intro ex
    exact runPlan_pair req.tag _ _ ex

/-- Request used by the C1 witness: named service, image, and a
revision-based traffic spec. -/
def demoTrafficRequest : DeployRequest :=
  { emptyRequest with
    service := "my-svc"
    image := "gcr.io/p/i"
    revTraffic := "v1=50,v2=50" }

/-- Witness for C1 at `demoTrafficRequest`. -/
theorem buildCommandPlan_two_commands_witness :
    ∃ d t drest trest,
      d = componentPrefix demoTrafficRequest ++
        ["run", "deploy", demoTrafficRequest.service] ++ drest ∧
      t = componentPrefix demoTrafficRequest ++
        ["run", "services", "update-traffic", demoTrafficRequest.service] ++ trest ∧
      buildCommandPlan demoTrafficRequest =
        Except.ok [(ResponseType.DEPLOY, d), (ResponseType.UPDATE_TRAFFIC, t)] ∧
      (∀ ex : List String → ExecResult, (ex d).exitCode ≠ 0 →
        execTraceRun demoTrafficRequest.tag
          [(ResponseType.DEPLOY, d), (ResponseType.UPDATE_TRAFFIC, t)] ex = [d]) ∧
      (∀ ex : List String → ExecResult,
        t ∈ execTraceRun demoTrafficRequest.tag
          [(ResponseType.DEPLOY, d), (ResponseType.UPDATE_TRAFFIC, t)] ex →
        (ex d).exitCode = 0) ∧
      (∀ ex : List String → ExecResult,
        ∀ o1 : DeployCloudRunOutputs, (ex d).exitCode = 0 →
        parseDeployResponse (ex d).stdout demoTrafficRequest.tag = Except.ok o1 →
        execTraceRun demoTrafficRequest.tag
          [(ResponseType.DEPLOY, d), (ResponseType.UPDATE_TRAFFIC, t)] ex
          = [d, t]) ∧
      (∀ ex : List String → ExecResult,
        runPlan demoTrafficRequest.tag
            [(ResponseType.DEPLOY, d), (ResponseType.UPDATE_TRAFFIC, t)] ex =
          (if (ex d).exitCode ≠ 0 then Except.error (execErrMsg d (ex d))
           else
            match parseDeployResponse (ex d).stdout demoTrafficRequest.tag with
            | Except.error e => Except.error e
            | Except.ok o1 =>
              if (ex t).exitCode ≠ 0 then Except.error (execErrMsg d (ex t))
              else
                match parseUpdateTrafficResponse (ex t).stdout with
                | Except.error e => Except.error e
                | Except.ok o2 => Except.ok [o1, o2])) :=
  buildCommandPlan_two_commands demoTrafficRequest (by decide) rfl rfl
    (Or.inl (by decide)) (by decide) (Or.inl ⟨by decide, rfl⟩) rfl
    (Or.inl rfl) (Or.inl rfl)

/-! ## C6: metadata name mismatch -/

/-- C6: a metadata file whose declared name is present but differs from a
non-empty explicit service input makes the Command Builder fail; no command
plan is produced. -/
theorem metadata_name_mismatch_fails (req : DeployRequest) (n : String)
    (hm : req.metadata ≠ "") (hn : req.metadataDoc.name = some n)
    (hne : n ≠ "") (hs : req.service ≠ "") (hmm : req.service ≠ n) :
    ∃ e, buildCommandPlan req = Except.error e := by
  have hb : buildBase req = Except.error ("service name in " ++ req.metadata ++
      " (\"" ++ n ++ "\") does not match GitHub Actions service input (\"" ++
      req.service ++ "\")") := by
    unfold buildBase
    rw [if_pos hm, hn]
    simp only [if_neg hne, if_pos (And.intro hs hmm)]
  unfold buildCommandPlan
  split
  · exact ⟨_, rfl⟩
  · split
    · exact ⟨_, rfl⟩
    · split
      · exact ⟨_, rfl⟩
      · split
        · exact ⟨_, rfl⟩
        · split
          · exact ⟨_, rfl⟩
          · rw [hb]
            exact ⟨_, rfl⟩

/-- Request used by the C6 witness. -/
def demoMismatchRequest : DeployRequest :=
  { emptyRequest with
    metadata := "svc.yaml"
    metadataDoc := ⟨some "app", some "Service"⟩
    service := "other" }

/-- Witness for C6 at `demoMismatchRequest`. -/
theorem metadata_name_mismatch_fails_witness :
    ∃ e, buildCommandPlan demoMismatchRequest = Except.error e :=
  metadata_name_mismatch_fails demoMismatchRequest "app" (by decide) rfl
    (by decide) (by decide) (by decide)

/-! ## C7: update-strategy validation -/

/-- The helper setEnvVarsFlags rejects a strategy that is neither lowercase
`overwrite` nor lowercase `merge` whenever there are env vars to push. -/
theorem setEnvVarsFlags_error (cmd : List String) (vars : List (String × String))
    (strat : String) (h1 : vars ≠ []) (h2 : strat ≠ "overwrite")
    (h3 : strat ≠ "merge") :
    setEnvVarsFlags cmd vars strat =
      Except.error ("Invalid \"env_vars_update_strategy\" value \"" ++ strat ++
        "\", valid values are \"overwrite\" and \"merge\".") := by
  unfold setEnvVarsFlags
  rw [if_neg (by simp [h1]), if_neg h2, if_neg h3]

/-- The helper setSecretsFlags rejects a strategy that is neither lowercase
`overwrite` nor lowercase `merge` whenever there are secrets to push. -/
theorem setSecretsFlags_error (cmd : List String) (vars : List (String × String))
    (strat : String) (h1 : vars ≠ []) (h2 : strat ≠ "overwrite")
    (h3 : strat ≠ "merge") :
    setSecretsFlags cmd vars strat =
      Except.error ("Invalid \"secrets_update_strategy\" value \"" ++ strat ++
        "\", valid values are \"overwrite\" and \"merge\".") := by
  unfold setSecretsFlags
  rw [if_neg (by simp [h1]), if_neg h2, if_neg h3]

/-- Request showing that the lowercase literal `merge` — which is not one
of the capitalized literals `Merge`/`Overwrite` — is accepted. -/
def reqLowerMerge : DeployRequest :=
  { emptyRequest with
    service := "svc"
    image := "gcr.io/p/i"
    compiledEnvVars := [("FOO", "bar")]
    envVarsUpdateStrategy := "merge" }

/-- Request showing that the capitalized literal `Merge` is rejected. -/
def reqUpperMerge : DeployRequest :=
  { emptyRequest with
    service := "svc"
    image := "gcr.io/p/i"
    compiledEnvVars := [("FOO", "bar")]
    envVarsUpdateStrategy := "Merge" }

/-- Counterexample to C7 as stated: the strategy value `merge` differs from
both literals `Merge` and `Overwrite` (case-sensitively), yet the Command
Builder succeeds and produces a plan; conversely the capitalized `Merge` is
rejected.  The accepted literals are the lowercase ones. -/
theorem update_strategy_literals_counterexample :
    (reqLowerMerge.envVarsUpdateStrategy = "merge" ∧
      reqLowerMerge.compiledEnvVars ≠ [] ∧
      "merge" ≠ "Merge" ∧ "merge" ≠ "Overwrite") ∧
    (∃ p, buildCommandPlan reqLowerMerge = Except.ok p) ∧
    (∃ e, buildCommandPlan reqUpperMerge = Except.error e) :=
  ⟨⟨rfl, by decide, by decide, by decide⟩, ⟨_, rfl⟩, ⟨_, rfl⟩⟩

/-- C7 (amended): with no metadata file in play, a non-empty compiled
env-vars mapping whose effective strategy is neither lowercase `merge` nor
lowercase `overwrite` — or likewise for secrets — makes the Command Builder
fail before producing any command. -/
theorem bad_update_strategy_fails (req : DeployRequest)
    (hm : req.metadata = "")
    (h : (req.compiledEnvVars ≠ [] ∧ effEnvStrategy req ≠ "overwrite" ∧
            effEnvStrategy req ≠ "merge") ∨
         (req.secrets ≠ [] ∧ effSecStrategy req ≠ "overwrite" ∧
            effSecStrategy req ≠ "merge")) :
    ∃ e, buildCommandPlan req = Except.error e := by
  have hbb : ∃ e, buildBase req = Except.error e := by
    unfold buildBase
    rw [if_neg (by simp [hm])]
    by_cases hj : req.job ≠ ""
    · rw [if_pos hj]
      dsimp only
      rcases h with ⟨h1, h2, h3⟩ | ⟨h1, h2, h3⟩
      · simp only [setEnvVarsFlags_error _ _ _ h1 h2 h3]
        exact ⟨_, rfl⟩
      · cases hE : setEnvVarsFlags (["run", "jobs", "deploy", req.job] ++
            (if req.image ≠ "" then ["--image", req.image]
             else if req.source ≠ "" then ["--source", req.source] else []))
            req.compiledEnvVars (effEnvStrategy req) with
        | error e =>
          simp only [hE]
          exact ⟨_, rfl⟩
        | ok cmd1 =>
          simp only [hE, setSecretsFlags_error _ _ _ h1 h2 h3]
          exact ⟨_, rfl⟩
    · rw [if_neg hj]
      dsimp only
      rcases h with ⟨h1, h2, h3⟩ | ⟨h1, h2, h3⟩
      · simp only [setEnvVarsFlags_error _ _ _ h1 h2 h3]
        exact ⟨_, rfl⟩
      · cases hE : setEnvVarsFlags (["run", "deploy", req.service] ++
            (if req.image ≠ "" then ["--image", req.image]
             else if req.source ≠ "" then ["--source", req.source] else []))
            req.compiledEnvVars (effEnvStrategy req) with
        | error e =>
          simp only [hE]
          exact ⟨_, rfl⟩
        | ok cmd1 =>
          simp only [hE, setSecretsFlags_error _ _ _ h1 h2 h3]
          exact ⟨_, rfl⟩
  unfold buildCommandPlan
  split
  · exact ⟨_, rfl⟩
  · split
    · exact ⟨_, rfl⟩
    · split
      · exact ⟨_, rfl⟩
      · split
        · exact ⟨_, rfl⟩
        · split
          · exact ⟨_, rfl⟩
          · obtain ⟨e, hbbe⟩ := hbb
            rw [hbbe]
            exact ⟨_, rfl⟩

/-- Request used by the witness of the amended C7. -/
def reqBadStrategy : DeployRequest :=
  { emptyRequest with
    service := "svc"
    image := "gcr.io/p/i"
    compiledEnvVars := [("FOO", "bar")]
    envVarsUpdateStrategy := "Overwrite" }

/-- Witness for the amended C7: the capitalized `Overwrite` is rejected. -/
theorem bad_update_strategy_fails_witness :
    ∃ e, buildCommandPlan reqBadStrategy = Except.error e :=
  bad_update_strategy_fails reqBadStrategy rfl
    (Or.inl ⟨by decide, by decide, by decide⟩)

/-! ## C10: unknown metadata kind -/

/-- Request whose metadata file has an unknown kind and no declared name:
the builder fails on the missing name first. -/
def reqNoNameBadKind : DeployRequest :=
  { emptyRequest with
    metadata := "service.yaml"
    metadataDoc := ⟨none, some "Deployment"⟩ }

/-- Counterexample to C10 as stated: this metadata file's kind
(`Deployment`) is neither `Service` nor `Job`, and the Command Builder does
fail — but with the missing-`metadata.name` error, whose message does not
name the unknown kind. -/
theorem unknown_kind_counterexample :
    reqNoNameBadKind.metadataDoc.kind = some "Deployment" ∧
    buildCommandPlan reqNoNameBadKind =
      Except.error "service.yaml is missing \x27metadata.name\x27" ∧
    ¬ strContains "service.yaml is missing \x27metadata.name\x27" "Deployment" :=
  ⟨rfl, rfl, by decide⟩

/-- C10 (amended): when the metadata file declares a name consistent with
the service input and the request passes the builder's earlier validations,
a kind that is neither `Service` nor `Job` (including an absent kind,
rendered `undefined`) fails with the unknown-kind error, which names the
offending kind; no command is produced. -/
theorem metadata_unknown_kind_fails (req : DeployRequest) (n : String)
    (hm : req.metadata ≠ "") (hn : req.metadataDoc.name = some n)
    (hne : n ≠ "") (hsvc : req.service = "" ∨ req.service = n)
    (hk1 : req.metadataDoc.kind ≠ some "Service")
    (hk2 : req.metadataDoc.kind ≠ some "Job")
    (hv1 : ¬(req.revTraffic ≠ "" ∧ req.tagTraffic ≠ ""))
    (hv2 : ¬((req.revTraffic ≠ "" ∨ req.tagTraffic ≠ "") ∧ req.service = ""))
    (hv3 : ¬(req.source ≠ "" ∧ req.image ≠ ""))
    (hv4 : ¬(req.service ≠ "" ∧ req.job ≠ ""))
    (hcomp : gcloudComponentBad req = false) :
    buildCommandPlan req = Except.error (unknownKindMsg req.metadataDoc.kind) ∧
    strContains (unknownKindMsg req.metadataDoc.kind)
      (kindText req.metadataDoc.kind) := by
  have hmm : ¬(req.service ≠ "" ∧ req.service ≠ n) := by
    rcases hsvc with h | h <;> simp [h]
  have hb : buildBase req = Except.error (unknownKindMsg req.metadataDoc.kind) := by
    unfold buildBase
    rw [if_pos hm, hn]
    simp only [if_neg hne, if_neg hmm, if_neg hk1, if_neg hk2]
  constructor
  · unfold buildCommandPlan
    rw [if_neg hv1, if_neg hv2, if_neg hv3, if_neg hv4,
      if_neg (by simp [hcomp]), hb]
  · exact strContains_mid "Unkown metadata type \"" _ _

/-- Request used by the witness of the amended C10. -/
def reqUnknownKind : DeployRequest :=
  { emptyRequest with
    metadata := "app.yaml"
    metadataDoc := ⟨some "app", some "Deployment"⟩ }

/-- Witness for the amended C10: kind `Deployment` is rejected with a
message that names it. -/
theorem metadata_unknown_kind_fails_witness :
    buildCommandPlan reqUnknownKind =
      Except.error (unknownKindMsg (some "Deployment")) ∧
    strContains (unknownKindMsg (some "Deployment")) "Deployment" :=
  metadata_unknown_kind_fails reqUnknownKind "app" (by decide) rfl (by decide)
    (Or.inl rfl) (by decide) (by decide) (by decide) (by decide) (by decide)
    (by decide) rfl

/-! ## C8: the tokenizer against the spec's splitting rule

`splitOutsideQuotes` is modelled from the spec's words: split the flag
string on whitespace or `=` outside double-quoted substrings, never split
inside double quotes, and keep the quote characters in the emitted token.
The two disagree on a terminated quoted substring holding a line
terminator: the regex unit `".*?"` uses `.`, which cannot cross a line
terminator, so the real tokenizer splits inside such quotes (see the
counterexample below).  `parseFlags` is proven to coincide with the
spec-worded splitter on every string whose quoted substrings are closed
before any line terminator and before the end of the input (an
unterminated quote is explicitly undefined behaviour in the spec).
-/

/-- Modelled from the spec: read one token, consuming characters until a
separator is met outside quotes; a quote character toggles quote mode and
is kept in the token. -/
def readTokenSpec : List Char → Bool → (List Char × List Char)
  | [], _ => ([], [])
  | c :: rest, inQ =>
    if c = '"' then
      let p := readTokenSpec rest (!inQ)
      (c :: p.1, p.2)
    else if !inQ && flagDelim c then ([], c :: rest)
    else
      let p := readTokenSpec rest inQ
      (c :: p.1, p.2)

/-- Modelled from the spec: drop separators, read a token, repeat. -/
def splitSpecF : Nat → List Char → List (List Char)
  | 0, _ => []
  | Nat.succ f, cs =>
    match cs.dropWhile flagDelim with
    | [] => []
    | c :: rest =>
      let p := readTokenSpec (c :: rest) false
      p.1 :: splitSpecF f p.2

/-- Modelled from the spec: the reference splitter. -/
def splitOutsideQuotes (s : String) : List String :=
  (splitSpecF s.data.length s.data).map String.mk

/-- Well-quoted character lists: every `"` opens a quoted chunk that is
closed before any line terminator and before the end of the input. -/
inductive BalancedQuotes : List Char → Prop where
  | nil : BalancedQuotes []
  | other (c : Char) (rest : List Char) :
      c ≠ '"' → BalancedQuotes rest → BalancedQuotes (c :: rest)
  | quoted (inside rest : List Char) :
      (∀ c ∈ inside, quoteBodyChar c = true) →
      BalancedQuotes rest →
      BalancedQuotes ('"' :: (inside ++ '"' :: rest))

example : splitOutsideQuotes "--concurrency=2 --memory=2Gi" =
    ["--concurrency", "2", "--memory", "2Gi"] := rfl
example : splitOutsideQuotes "--flag=\"a b\"" = ["--flag", "\"a b\""] := rfl

/-- Splitting a concatenation at the first character failing the
predicate. -/
theorem takeWhile_dropWhile_exact (p : Char → Bool) (l r : List Char)
    (hl : ∀ c ∈ l, p c = true)
    (hr : r = [] ∨ ∃ d r2, r = d :: r2 ∧ p d = false) :
    (l ++ r).takeWhile p = l ∧ (l ++ r).dropWhile p = r := by
  induction l with
  | nil =>
    simp only [List.nil_append]
    rcases hr with h | ⟨d, r2, rfl, hd⟩
    · subst h
      exact ⟨rfl, rfl⟩
    · exact ⟨List.takeWhile_cons_of_neg (by simp [hd]),
        List.dropWhile_cons_of_neg (by simp [hd])⟩
  | cons c l ih =>
    have hc : p c = true := hl c (List.mem_cons_self c l)
    have hl2 : ∀ x ∈ l, p x = true := fun x hx => hl x (List.mem_cons_of_mem c hx)
    obtain ⟨ht, hd⟩ := ih hl2
    constructor
    · rw [List.cons_append, List.takeWhile_cons_of_pos (by simp [hc]), ht]
    · rw [List.cons_append, List.dropWhile_cons_of_pos (by simp [hc]), hd]

/-- One step of `readTokenSpec` on a quote. -/
theorem readTokenSpec_cons_quote (rest : List Char) (inQ : Bool) :
    readTokenSpec ('"' :: rest) inQ =
      ('"' :: (readTokenSpec rest (!inQ)).1, (readTokenSpec rest (!inQ)).2) := by
  conv_lhs => unfold readTokenSpec
  rw [if_pos rfl]

/-- One step of `readTokenSpec` on a kept (non-splitting) character. -/
theorem readTokenSpec_cons_keep (c : Char) (rest : List Char) (inQ : Bool)
    (hne : ¬(c = '"')) (hcond : (!inQ && flagDelim c) = false) :
    readTokenSpec (c :: rest) inQ =
      (c :: (readTokenSpec rest inQ).1, (readTokenSpec rest inQ).2) := by
  conv_lhs => unfold readTokenSpec
  rw [if_neg hne, if_neg (by simp [hcond])]

/-- One step of `readTokenSpec` on an unquoted separator. -/
theorem readTokenSpec_cons_stop (c : Char) (rest : List Char)
    (hne : ¬(c = '"')) (hdel : flagDelim c = true) :
    readTokenSpec (c :: rest) false = ([], c :: rest) := by
  conv_lhs => unfold readTokenSpec
  rw [if_neg hne, if_pos (by simp [hdel])]

/-- The two Boolean facts packed in `plainChar`. -/
theorem plainChar_spec (c : Char) (hc : plainChar c = true) :
    ¬(c = '"') ∧ flagDelim c = false := by
  unfold plainChar at hc
  constructor
  · intro he
    rw [he] at hc
    exact absurd hc (by decide)
  · cases hfd : flagDelim c with
    | false => rfl
    | true =>
      rw [hfd, Bool.or_true] at hc
      exact absurd hc (by decide)

/-- The reader readTokenSpec walks through a run of plain characters. -/
theorem readTokenSpec_plain (u r : List Char)
    (h : ∀ c ∈ u, plainChar c = true) :
    readTokenSpec (u ++ r) false =
      (u ++ (readTokenSpec r false).1, (readTokenSpec r false).2) := by
  induction u with
  | nil => simp
  | cons c u ih =>
    obtain ⟨hne, hdel⟩ := plainChar_spec c (h c (List.mem_cons_self c u))
    have h2 : ∀ x ∈ u, plainChar x = true :=
      fun x hx => h x (List.mem_cons_of_mem c hx)
    rw [List.cons_append, readTokenSpec_cons_keep c _ false hne (by simp [hdel]),
      ih h2]
    rfl

/-- The reader readTokenSpec walks through a quoted body and its closing quote. -/
theorem readTokenSpec_quoteBody (inside r : List Char)
    (h : ∀ c ∈ inside, quoteBodyChar c = true) :
    readTokenSpec (inside ++ '"' :: r) true =
      (inside ++ '"' :: (readTokenSpec r false).1, (readTokenSpec r false).2) := by
  induction inside with
  | nil =>
    rw [List.nil_append, readTokenSpec_cons_quote]
    rfl
  | cons c inside ih =>
    have hc : quoteBodyChar c = true := h c (List.mem_cons_self c inside)
    have hne : ¬(c = '"') := by
      intro he
      rw [he] at hc
      exact absurd hc (by decide)
    have h2 : ∀ x ∈ inside, quoteBodyChar x = true :=
      fun x hx => h x (List.mem_cons_of_mem c hx)
    rw [List.cons_append, readTokenSpec_cons_keep c _ true hne (by simp),
      ih h2]
    rfl

/-- The reader readTokenSpec over a whole quoted unit. -/
theorem readTokenSpec_quoted (inside r : List Char)
    (h : ∀ c ∈ inside, quoteBodyChar c = true) :
    readTokenSpec ('"' :: (inside ++ '"' :: r)) false =
      (('"' :: (inside ++ ['"'])) ++ (readTokenSpec r false).1,
        (readTokenSpec r false).2) := by
  rw [readTokenSpec_cons_quote]
  rw [show (!false) = true from rfl, readTokenSpec_quoteBody inside r h]
  simp

/-- A quote never opens at a character different from `"`. -/
theorem quotedUnitAt_cons_ne (c : Char) (rest : List Char) (h : ¬(c = '"')) :
    quotedUnitAt (c :: rest) = none := by
  unfold quotedUnitAt
  simp only [if_neg h]

/-- A plain unit never starts at a separator or quote. -/
theorem plainUnitAt_cons_neg (c : Char) (rest : List Char)
    (h : plainChar c = false) : plainUnitAt (c :: rest) = none := by
  unfold plainUnitAt
  rw [List.takeWhile_cons_of_neg (by simp [h])]
  rfl

/-- No unit matches at an unquoted separator. -/
theorem unitAt_none_delim (c : Char) (rest : List Char) (hne : ¬(c = '"'))
    (hdel : flagDelim c = true) : unitAt (c :: rest) = none := by
  unfold unitAt
  simp only [quotedUnitAt_cons_ne c rest hne]
  exact plainUnitAt_cons_neg c rest (by simp [plainChar, hdel])

/-- The plain unit at a plain character is the maximal plain run. -/
theorem unitAt_plain (c : Char) (rest : List Char) (hp : plainChar c = true) :
    unitAt (c :: rest) =
      some ((c :: rest).takeWhile plainChar, (c :: rest).dropWhile plainChar) := by
  obtain ⟨hne, _⟩ := plainChar_spec c hp
  unfold unitAt
  simp only [quotedUnitAt_cons_ne c rest hne]
  unfold plainUnitAt
  rw [List.takeWhile_cons_of_pos (by simp [hp])]
  rfl

/-- The quoted unit at a well-formed quoted chunk. -/
theorem unitAt_quoted (inside rest : List Char)
    (h : ∀ c ∈ inside, quoteBodyChar c = true) :
    unitAt ('"' :: (inside ++ '"' :: rest)) =
      some ('"' :: (inside ++ ['"']), rest) := by
  obtain ⟨ht, hd⟩ := takeWhile_dropWhile_exact quoteBodyChar inside ('"' :: rest)
    h (Or.inr ⟨'"', rest, rfl, by decide⟩)
  unfold unitAt quotedUnitAt
  simp [ht, hd]

/-- Dropping a non-quote head keeps quotes balanced. -/
theorem BalancedQuotes.tail (c : Char) (rest : List Char)
    (h : BalancedQuotes (c :: rest)) (hne : ¬(c = '"')) :
    BalancedQuotes rest := by
  cases h with
  | other _ _ _ h2 => exact h2
  | quoted inside r2 hin hb => exact absurd rfl hne

/-- Inversion at an opening quote: balancedness provides the closing
quote. -/
theorem BalancedQuotes.quote_inv (rest : List Char)
    (h : BalancedQuotes ('"' :: rest)) :
    ∃ inside r2, rest = inside ++ '"' :: r2 ∧
      (∀ c ∈ inside, quoteBodyChar c = true) ∧ BalancedQuotes r2 := by
  cases h with
  | other _ _ hne _ => exact absurd rfl hne
  | quoted inside r2 hin hb => exact ⟨inside, r2, rfl, hin, hb⟩

/-- Dropping a quote-free prefix keeps quotes balanced. -/
theorem balanced_drop_plain : ∀ (u r : List Char),
    (∀ c ∈ u, plainChar c = true) → BalancedQuotes (u ++ r) →
    BalancedQuotes r := by
  intro u
  induction u with
  | nil => exact fun r _ h => h
  | cons c u ih =>
    intro r hmem hb
    have hc := plainChar_spec c (hmem c (List.mem_cons_self c u))
    exact ih r (fun x hx => hmem x (List.mem_cons_of_mem c hx))
      (BalancedQuotes.tail c (u ++ r) hb hc.1)

/-- Base case of unitsFrom and readTokenSpec on the empty input. -/
theorem unitsFrom_nil (f : Nat) (acc : List Char) :
    unitsFrom f [] acc = (acc, []) := by
  cases f with
  | zero => rfl
  | succ f => rfl

/-- On a balanced input, the greedy unit concatenation of the regex match
computes exactly the spec's token reader, the leftover is balanced, and the
leftover is no longer than the input. -/
theorem unitsFrom_readTokenSpec : ∀ (n : Nat) (cs : List Char),
    BalancedQuotes cs → cs.length ≤ n →
    (∀ (f : Nat) (acc : List Char), cs.length ≤ f →
      unitsFrom f cs acc =
        (acc ++ (readTokenSpec cs false).1, (readTokenSpec cs false).2)) ∧
    BalancedQuotes (readTokenSpec cs false).2 ∧
    (readTokenSpec cs false).2.length ≤ cs.length := by
  intro n
  induction n with
  | zero =>
    intro cs hb hlen
    have h0 : cs = [] := List.eq_nil_of_length_eq_zero (Nat.le_zero.mp hlen)
    subst h0
    exact ⟨fun f acc _ => by rw [unitsFrom_nil]; simp [readTokenSpec],
      BalancedQuotes.nil, Nat.le_refl 0⟩
  | succ n ih =>
    intro cs hb hlen
    cases cs with
    | nil =>
      exact ⟨fun f acc _ => by rw [unitsFrom_nil]; simp [readTokenSpec],
        BalancedQuotes.nil, Nat.le_refl 0⟩
    | cons c rest =>
      by_cases hq : c = '"'
      · subst hq
        obtain ⟨inside, r2, hrest, hin, hb2⟩ := BalancedQuotes.quote_inv rest hb
        subst hrest
        have hrts := readTokenSpec_quoted inside r2 hin
        have hunit := unitAt_quoted inside r2 hin
        have hlen2 : r2.length ≤ n := by
          simp only [List.length_cons, List.length_append] at hlen
          omega
        obtain ⟨ihf, ihb, ihl⟩ := ih r2 hb2 hlen2
        refine ⟨?_, ?_, ?_⟩
        · intro f acc hf
          cases f with
          | zero => simp at hf
          | succ f2 =>
            have hf2 : r2.length ≤ f2 := by
              simp only [List.length_cons, List.length_append] at hf
              omega
            conv_lhs => unfold unitsFrom
            simp only [hunit]
            rw [ihf f2 _ hf2, hrts]
            simp [List.append_assoc]
        · rw [hrts]
          exact ihb
        · rw [hrts]
          simp only [List.length_cons, List.length_append]
          omega
      · by_cases hd : flagDelim c = true
        · have hrts := readTokenSpec_cons_stop c rest hq hd
          have hunit : unitAt (c :: rest) = none := unitAt_none_delim c rest hq hd
          refine ⟨?_, ?_, ?_⟩
          · intro f acc hf
            cases f with
            | zero => simp at hf
            | succ f2 =>
              conv_lhs => unfold unitsFrom
              simp only [hunit]
              rw [hrts]
              simp
          · rw [hrts]
            exact hb
          · rw [hrts]
        · have hp : plainChar c = true := by
            simp [plainChar, hq, hd]
          have hsplit : (c :: rest).takeWhile plainChar ++
              (c :: rest).dropWhile plainChar = c :: rest :=
            List.takeWhile_append_dropWhile plainChar (c :: rest)
          have hmem : ∀ x ∈ (c :: rest).takeWhile plainChar, plainChar x = true :=
            fun x hx => List.mem_takeWhile_imp hx
          have hbr : BalancedQuotes ((c :: rest).dropWhile plainChar) :=
            balanced_drop_plain _ _ hmem (by rw [hsplit]; exact hb)
          have hrts := readTokenSpec_plain ((c :: rest).takeWhile plainChar)
            ((c :: rest).dropWhile plainChar) hmem
          rw [hsplit] at hrts
          have hunit := unitAt_plain c rest hp
          have htw : (c :: rest).takeWhile plainChar =
              c :: rest.takeWhile plainChar :=
            List.takeWhile_cons_of_pos (by simp [hp])
          have hlendw : ((c :: rest).dropWhile plainChar).length < (c :: rest).length := by
            have := congrArg List.length hsplit
            simp only [List.length_append] at this
            rw [htw] at this
            simp only [List.length_cons] at this ⊢
            omega
          have hlen2 : ((c :: rest).dropWhile plainChar).length ≤ n := by
            simp only [List.length_cons] at hlen
            simp only [List.length_cons] at hlendw
            omega
          obtain ⟨ihf, ihb, ihl⟩ := ih _ hbr hlen2
          refine ⟨?_, ?_, ?_⟩
          · intro f acc hf
            cases f with
            | zero => simp at hf
            | succ f2 =>
              have hf2 : ((c :: rest).dropWhile plainChar).length ≤ f2 := by
                simp only [List.length_cons] at hf
                simp only [List.length_cons] at hlendw
                omega
              conv_lhs => unfold unitsFrom
              simp only [hunit]
              rw [ihf f2 _ hf2, hrts]
              simp [List.append_assoc]
          · rw [hrts]
            exact ihb
          · rw [hrts]
            exact Nat.le_trans ihl (Nat.le_of_lt hlendw)

/-- On a balanced input starting with a non-separator, the full regex match
at the head is exactly the spec's token. -/
theorem tokenAt_readTokenSpec (c : Char) (rest : List Char)
    (hb : BalancedQuotes (c :: rest)) (hd : flagDelim c = false) :
    tokenAt (c :: rest) =
      some ((readTokenSpec (c :: rest) false).1,
        (readTokenSpec (c :: rest) false).2) ∧
    BalancedQuotes (readTokenSpec (c :: rest) false).2 ∧
    (readTokenSpec (c :: rest) false).2.length < (c :: rest).length := by
  by_cases hq : c = '"'
  · subst hq
    obtain ⟨inside, r2, hrest, hin, hb2⟩ := BalancedQuotes.quote_inv rest hb
    subst hrest
    have hrts := readTokenSpec_quoted inside r2 hin
    have hunit := unitAt_quoted inside r2 hin
    obtain ⟨ihf, ihb, ihl⟩ :=
      unitsFrom_readTokenSpec r2.length r2 hb2 (Nat.le_refl _)
    refine ⟨?_, ?_, ?_⟩
    · unfold tokenAt
      simp only [hunit]
      rw [ihf r2.length _ (Nat.le_refl _), hrts]
    · rw [hrts]
      exact ihb
    · rw [hrts]
      simp only [List.length_cons, List.length_append]
      omega
  · have hp : plainChar c = true := by
      simp [plainChar, hq, hd]
    have hsplit : (c :: rest).takeWhile plainChar ++
        (c :: rest).dropWhile plainChar = c :: rest :=
      List.takeWhile_append_dropWhile plainChar (c :: rest)
    have hmem : ∀ x ∈ (c :: rest).takeWhile plainChar, plainChar x = true :=
      fun x hx => List.mem_takeWhile_imp hx
    have hbr : BalancedQuotes ((c :: rest).dropWhile plainChar) :=
      balanced_drop_plain _ _ hmem (by rw [hsplit]; exact hb)
    have hrts := readTokenSpec_plain ((c :: rest).takeWhile plainChar)
      ((c :: rest).dropWhile plainChar) hmem
    rw [hsplit] at hrts
    have hunit := unitAt_plain c rest hp
    have htw : (c :: rest).takeWhile plainChar = c :: rest.takeWhile plainChar :=
      List.takeWhile_cons_of_pos (by simp [hp])
    have hlendw : ((c :: rest).dropWhile plainChar).length < (c :: rest).length := by
      have := congrArg List.length hsplit
      simp only [List.length_append] at this
      rw [htw] at this
      simp only [List.length_cons] at this ⊢
      omega
    obtain ⟨ihf, ihb, ihl⟩ := unitsFrom_readTokenSpec
      ((c :: rest).dropWhile plainChar).length _ hbr (Nat.le_refl _)
    refine ⟨?_, ?_, ?_⟩
    · unfold tokenAt
      simp only [hunit]
      rw [ihf _ _ (Nat.le_refl _), hrts]
    · rw [hrts]
      exact ihb
    · rw [hrts]
      exact Nat.lt_of_le_of_lt ihl hlendw

/-- The spec splitter ignores a leading separator. -/
theorem splitSpecF_cons_delim (k : Nat) (c : Char) (rest : List Char)
    (hd : flagDelim c = true) :
    splitSpecF (Nat.succ k) (c :: rest) = splitSpecF (Nat.succ k) rest := by
  conv_lhs => unfold splitSpecF
  conv_rhs => unfold splitSpecF
  rw [List.dropWhile_cons_of_pos (by simp [hd])]

/-- The global regex scan equals the spec splitter on balanced inputs. -/
theorem flagScan_splitSpec : ∀ (n : Nat) (cs : List Char),
    BalancedQuotes cs → cs.length ≤ n →
    ∀ (m k : Nat), cs.length ≤ m → cs.length ≤ k →
    flagScan m cs = splitSpecF k cs := by
  intro n
  induction n with
  | zero =>
    intro cs hb hlen m k hm hk
    have h0 : cs = [] := List.eq_nil_of_length_eq_zero (Nat.le_zero.mp hlen)
    subst h0
    cases m <;> cases k <;> rfl
  | succ n ih =>
    intro cs hb hlen m k hm hk
    cases cs with
    | nil => cases m <;> cases k <;> rfl
    | cons c rest =>
      cases m with
      | zero => simp at hm
      | succ m2 =>
        cases k with
        | zero => simp at hk
        | succ k2 =>
          by_cases hd : flagDelim c = true
          · have hne : ¬(c = '"') := by
              intro he
              rw [he] at hd
              exact absurd hd (by decide)
            have htok : tokenAt (c :: rest) = none := by
              unfold tokenAt
              simp only [unitAt_none_delim c rest hne hd]
            conv_lhs => unfold flagScan
            simp only [htok]
            rw [splitSpecF_cons_delim k2 c rest hd]
            exact ih rest (BalancedQuotes.tail c rest hb hne)
              (by simp only [List.length_cons] at hlen; omega) m2 (Nat.succ k2)
              (by simp only [List.length_cons] at hm; omega)
              (by simp only [List.length_cons] at hk; omega)
          · have hd2 : flagDelim c = false := by
              cases hfd : flagDelim c with
              | false => rfl
              | true => exact absurd hfd hd
            obtain ⟨htok, hbr, hlt⟩ := tokenAt_readTokenSpec c rest hb hd2
            conv_lhs => unfold flagScan
            simp only [htok]
            conv_rhs => unfold splitSpecF
            rw [List.dropWhile_cons_of_neg (by simp [hd2])]
            simp only []
            have hlt2 : (readTokenSpec (c :: rest) false).2.length ≤ rest.length := by
              simp only [List.length_cons] at hlt
              omega
            rw [ih (readTokenSpec (c :: rest) false).2 hbr
              (Nat.le_trans hlt2 (by simp only [List.length_cons] at hlen; omega))
              m2 k2
              (Nat.le_trans hlt2 (by simp only [List.length_cons] at hm; omega))
              (Nat.le_trans hlt2 (by simp only [List.length_cons] at hk; omega))]

/-- Counterexample to C8 as stated: on the flag string
`--flag="a` `\n` `b"`, whose double quotes are terminated, `parseFlags`
splits inside the quoted substring — the regex `.` of the unit
`".*?"` cannot cross the line terminator — yielding three tokens, while
the spec's rule (never split inside double quotes) keeps the quoted
substring whole. -/
theorem parseFlags_counterexample :
    parseFlags "--flag=\"a\nb\"" = ["--flag", "a", "b"] ∧
    splitOutsideQuotes "--flag=\"a\nb\"" = ["--flag", "\"a\nb\""] ∧
    parseFlags "--flag=\"a\nb\"" ≠ splitOutsideQuotes "--flag=\"a\nb\"" :=
  ⟨rfl, rfl, by decide⟩

/-- C8 amended: on every flag string whose double-quoted substrings are
closed before any line terminator and before the end of the input,
`parseFlags` splits on whitespace or `=` outside double-quoted
substrings, never splits inside double quotes, and keeps the quote
characters — it coincides with the spec-worded splitter
`splitOutsideQuotes`; and it reproduces the spec's concrete examples
exactly.  (A terminated quoted substring holding a line terminator is
split inside the quotes, and an unterminated quote is undefined
behaviour in the spec.) -/
theorem parseFlags_spec :
    (∀ s : String, BalancedQuotes s.data →
      parseFlags s = splitOutsideQuotes s) ∧
    parseFlags "--concurrency=2 --memory=2Gi" =
      ["--concurrency", "2", "--memory", "2Gi"] ∧
    parseFlags "--concurrency 2 --memory=\"2 Gi\"" =
      ["--concurrency", "2", "--memory", "\"2 Gi\""] ∧
    parseFlags "--flag=\"a b\"" = ["--flag", "\"a b\""] ∧
    parseFlags "--flag \"a b\"" = ["--flag", "\"a b\""] := by
  refine ⟨?_, rfl, rfl, rfl, rfl⟩
  intro s hb
  unfold parseFlags splitOutsideQuotes
  rw [flagScan_splitSpec s.data.length s.data hb (Nat.le_refl _)
    s.data.length s.data.length (Nat.le_refl _) (Nat.le_refl _)]

/-- Witness for C8: the general equivalence applied at the concrete
balanced string `--flag="a b"`. -/
theorem parseFlags_spec_witness :
    parseFlags "--flag=\"a b\"" = splitOutsideQuotes "--flag=\"a b\"" := by
  apply parseFlags_spec.1
  show BalancedQuotes ['-', '-', 'f', 'l', 'a', 'g', '=', '"', 'a', ' ', 'b', '"']
  refine BalancedQuotes.other _ _ (by decide) ?_
  refine BalancedQuotes.other _ _ (by decide) ?_
  refine BalancedQuotes.other _ _ (by decide) ?_
  refine BalancedQuotes.other _ _ (by decide) ?_
  refine BalancedQuotes.other _ _ (by decide) ?_
  refine BalancedQuotes.other _ _ (by decide) ?_
  refine BalancedQuotes.other _ _ (by decide) ?_
  exact BalancedQuotes.quoted ['a', ' ', 'b'] [] (by decide) BalancedQuotes.nil
